import Mathlib

/-!
Verification of the document-store overlay (`src/index.js`).

This file gives a shallow embedding of the document store layered on an
ordered key-value engine, and proves/refutes the specification claims about
it.  JavaScript values are modelled by `JsVal`; the KV store is an
association list from structured keys (`List JsVal`) to optional stored
values; the engine state (`St`) additionally records a write log, a read log
and the emitted events so that claims such as "performs zero KV writes" are
statable.  The in-memory `Collection`/`Index` declarations come from the
module `./collection`, whose source is not part of the repository; those
definitions are modelled from the spec and are marked as such.
-/

/-- Model of a JavaScript (JSON-like) value, including `undefined`. -/
inductive JsVal : Type where
  | undefined : JsVal
  | null : JsVal
  | boolean : Bool → JsVal
  | num : Int → JsVal
  | str : String → JsVal
  | arr : List JsVal → JsVal
  | obj : List (String × JsVal) → JsVal

mutual

def jsDecEq : (a b : JsVal) → Decidable (a = b)
  | .undefined, .undefined => .isTrue rfl
  | .null, .null => .isTrue rfl
  | .boolean x, .boolean y =>
    match decEq x y with
    | .isTrue h => .isTrue (by rw [h])
    | .isFalse h => .isFalse (by intro hh; injection hh; contradiction)
  | .num x, .num y =>
    match decEq x y with
    | .isTrue h => .isTrue (by rw [h])
    | .isFalse h => .isFalse (by intro hh; injection hh; contradiction)
  | .str x, .str y =>
    match decEq x y with
    | .isTrue h => .isTrue (by rw [h])
    | .isFalse h => .isFalse (by intro hh; injection hh; contradiction)
  | .arr xs, .arr ys =>
    match jsDecEqList xs ys with
    | .isTrue h => .isTrue (by rw [h])
    | .isFalse h => .isFalse (by intro hh; injection hh; contradiction)
  | .obj fs, .obj gs =>
    match jsDecEqFields fs gs with
    | .isTrue h => .isTrue (by rw [h])
    | .isFalse h => .isFalse (by intro hh; injection hh; contradiction)
  | .undefined, .null | .undefined, .boolean _ | .undefined, .num _ | .undefined, .str _ | .undefined, .arr _ | .undefined, .obj _ => .isFalse (by intro hh; exact absurd hh (by simp))
  | .null, .undefined | .null, .boolean _ | .null, .num _ | .null, .str _ | .null, .arr _ | .null, .obj _ => .isFalse (by intro hh; exact absurd hh (by simp))
  | .boolean _, .undefined | .boolean _, .null | .boolean _, .num _ | .boolean _, .str _ | .boolean _, .arr _ | .boolean _, .obj _ => .isFalse (by intro hh; exact absurd hh (by simp))
  | .num _, .undefined | .num _, .null | .num _, .boolean _ | .num _, .str _ | .num _, .arr _ | .num _, .obj _ => .isFalse (by intro hh; exact absurd hh (by simp))
  | .str _, .undefined | .str _, .null | .str _, .boolean _ | .str _, .num _ | .str _, .arr _ | .str _, .obj _ => .isFalse (by intro hh; exact absurd hh (by simp))
  | .arr _, .undefined | .arr _, .null | .arr _, .boolean _ | .arr _, .num _ | .arr _, .str _ | .arr _, .obj _ => .isFalse (by intro hh; exact absurd hh (by simp))
  | .obj _, .undefined | .obj _, .null | .obj _, .boolean _ | .obj _, .num _ | .obj _, .str _ | .obj _, .arr _ => .isFalse (by intro hh; exact absurd hh (by simp))

def jsDecEqList : (xs ys : List JsVal) → Decidable (xs = ys)
  | [], [] => .isTrue rfl
  | [], _ :: _ => .isFalse (by simp)
  | _ :: _, [] => .isFalse (by simp)
  | x :: xs, y :: ys =>
    match jsDecEq x y with
    | .isFalse h1 => .isFalse (by intro hh; simp only [List.cons.injEq] at hh; exact h1 hh.1)
    | .isTrue h1 =>
      match jsDecEqList xs ys with
      | .isTrue h2 => .isTrue (by rw [h1, h2])
      | .isFalse h2 => .isFalse (by intro hh; simp only [List.cons.injEq] at hh; exact h2 hh.2)

def jsDecEqFields : (fs gs : List (String × JsVal)) → Decidable (fs = gs)
  | [], [] => .isTrue rfl
  | [], _ :: _ => .isFalse (by simp)
  | _ :: _, [] => .isFalse (by simp)
  | (k1, v1) :: fs, (k2, v2) :: gs =>
    match decEq k1 k2 with
    | .isFalse h1 => .isFalse (by intro hh; simp only [List.cons.injEq, Prod.mk.injEq] at hh; exact h1 hh.1.1)
    | .isTrue h1 =>
      match jsDecEq v1 v2 with
      | .isFalse h2 => .isFalse (by intro hh; simp only [List.cons.injEq, Prod.mk.injEq] at hh; exact h2 hh.1.2)
      | .isTrue h2 =>
        match jsDecEqFields fs gs with
        | .isTrue h3 => .isTrue (by rw [h1, h2, h3])
        | .isFalse h3 => .isFalse (by intro hh; simp only [List.cons.injEq, Prod.mk.injEq] at hh; exact h3 hh.2)

end

instance : DecidableEq JsVal := jsDecEq

/-- Field lookup in a JavaScript object (first binding wins; JS objects have
unique keys, so first is the only one). -/
def jsFieldLookup (fields : List (String × JsVal)) (k : String) : Option JsVal :=
  match fields with
  | [] => none
  | (k2, v) :: rest => if k2 = k then some v else jsFieldLookup rest k

/-- Property access `v[k]` on a JavaScript value: a field of an object, and
`undefined` on any non-object (as for `index.name` when `index` is a string). -/
def jsGetField (v : JsVal) (k : String) : JsVal :=
  match v with
  | .obj fields => (jsFieldLookup fields k).getD .undefined
  | _ => .undefined

/-- JavaScript truthiness, as used by `if (val)` / `a && b`. -/
def jsTruthy : JsVal → Bool
  | .undefined => false
  | .null => false
  | .boolean b => b
  | .num n => n != 0
  | .str s => s != ""
  | .arr _ => true
  | .obj _ => true

/-- JavaScript loose comparison `val != null`, false exactly on `null` and
`undefined`. -/
def jsNonNull : JsVal → Bool
  | .undefined => false
  | .null => false
  | _ => true

/-- Deep equality in the sense of `lodash.isequal`: structural on scalars and
arrays, key-order-insensitive on objects (same number of fields, and every
field of the left object is present with a deeply equal value on the right). -/
def jsEqual (a b : JsVal) : Bool :=
  match a, b with
  | .undefined, .undefined => true
  | .null, .null => true
  | .boolean x, .boolean y => x == y
  | .num x, .num y => x == y
  | .str x, .str y => x == y
  | .arr xs, .arr ys => jsEqualList xs ys
  | .obj fs, .obj gs => fs.length == gs.length && jsEqualSub fs gs
  | _, _ => false
where
  jsEqualList (xs ys : List JsVal) : Bool :=
    match xs, ys with
    | [], [] => true
    | x :: xs2, y :: ys2 => jsEqual x y && jsEqualList xs2 ys2
    | _, _ => false
  jsEqualSub (fs gs : List (String × JsVal)) : Bool :=
    match fs, gs with
    | [], _ => true
    | (k, v) :: fs2, gs =>
      (match jsFieldLookup gs k with
       | some w => jsEqual v w
       | none => false) && jsEqualSub fs2 gs

/-- Deep equality on lists of values (`lodash.isequal` applied to two arrays),
used for the `oldValues`/`newValues` comparison in `updateIndex`. -/
def jsEqualVals (xs ys : List JsVal) : Bool :=
  jsEqual (.arr xs) (.arr ys)

/-- Deep equality on two optional objects, used for the
`oldProjection`/`newProjection` comparison in `updateIndex` (where an unset
projection is JS `undefined`, and `isEqual(undefined, undefined)` holds). -/
def jsEqualOptObj : Option (List (String × JsVal)) → Option (List (String × JsVal)) → Bool
  | none, none => true
  | some fs, some gs => jsEqual (.obj fs) (.obj gs)
  | _, _ => false

mutual

/-- Flattening of a structured item into dot-joined property paths, modelling
the `flatten` function of the external `expand-flatten` dependency as the spec
describes it ("the engine flattens items (dot-joined paths)"): nested objects
are traversed recursively, every other value is a leaf.  `flatten` applied to
`undefined` (an absent item) yields the empty record. -/
def flattenVal (path : String) (v : JsVal) : List (String × JsVal) :=
  match v with
  | .obj inner => flattenFields (path ++ ".") inner
  | leaf => [(path, leaf)]

def flattenFields (pfx : String) (fields : List (String × JsVal)) : List (String × JsVal) :=
  match fields with
  | [] => []
  | (k, v) :: rest => flattenVal (pfx ++ k) v ++ flattenFields pfx rest

end

/-- Flatten an optional item (`undefined` flattens to the empty record). -/
def flattenItem : Option JsVal → List (String × JsVal)
  | some (.obj fields) => flattenFields "" fields
  | _ => []

example : flattenItem (some (.obj [("a", .num 1), ("b", .obj [("c", .str "x")])]))
    = [("a", .num 1), ("b.c", .str "x")] := by decide

example : jsEqual (.obj [("a", .num 1), ("b", .null)]) (.obj [("b", .null), ("a", .num 1)]) = true := by
  decide

example : jsEqualVals [.undefined, .num 1] [.undefined, .num 1] = true := by decide

/-- Modelled from the spec: one declared index property of the module
`./collection` (not under `src/`): for each key either `value = true`
(simple: read the flattened item at the key) or `value = fn` (computed: apply
`fn` to the item).  `value = none` models the simple case. -/
structure IndexProp : Type where
  key : String
  value : Option (JsVal → JsVal)

/-- Modelled from the spec: a declared index of the module `./collection`
(not under `src/`): an ordered property tuple and an optional projection. -/
structure Index : Type where
  properties : List IndexProp
  projection : Option (List String)

/-- The ordered key tuple of a declared index (`index.keys`), the identity of
the index. -/
def Index.keys (idx : Index) : List String :=
  idx.properties.map IndexProp.key

/-- Modelled from the spec: a declared collection of the module
`./collection` (not under `src/`): a name and an ordered sequence of index
declarations. -/
structure Collection : Type where
  name : String
  indexes : List Index

/-- Persisted index descriptor (`keys` plus optional `projection`; computed
value metadata is not persisted). -/
structure IndexDesc : Type where
  keys : List String
  projection : Option (List String)
deriving DecidableEq

/-- Persisted collection descriptor. -/
structure CollectionDesc : Type where
  name : String
  hasBeenRemoved : Bool
  indexes : List IndexDesc
deriving DecidableEq

/-- Legacy pre-version-2 table descriptor: its `indexes` holds arbitrary
values (legacy index records are objects carrying a `name` field). -/
structure LegacyTable : Type where
  indexes : List JsVal
deriving DecidableEq

/-- The persisted store descriptor.  `lastMigrationNumber` and `tables` are
legacy fields only present in pre-version-2 descriptors (`none` models the
absent field). -/
structure StoreRecord : Type where
  name : String
  version : Int
  isLocked : Bool
  collections : List CollectionDesc
  lastMigrationNumber : Option Int
  tables : Option (List LegacyTable)
deriving DecidableEq

/-- Modelled from the spec: `Index#toJSON` of `./collection` — the persisted
form of a declared index keeps only `keys` and `projection`. -/
def Index.toJSON (idx : Index) : IndexDesc :=
  { keys := idx.keys, projection := idx.projection }

/-- Modelled from the spec: `Collection#toJSON` of `./collection`. -/
def Collection.toJSON (c : Collection) : CollectionDesc :=
  { name := c.name, hasBeenRemoved := false, indexes := c.indexes.map Index.toJSON }

/-- Two key lists contain the same set of keys. -/
def sameKeySet (xs ys : List String) : Bool :=
  xs.all (fun k => ys.contains k) && ys.all (fun k => xs.contains k)

/-- Modelled from the spec: an index matches a (query, order) pair when its
`keys` prefix covers all query keys followed by all order keys — set-equal for
the query portion, order-preserving for the order portion. -/
def indexMatchesQueryOrder (idx : Index) (queryKeys orderKeys : List String) : Bool :=
  let n := queryKeys.length
  let pre := idx.keys.take n
  let mid := (idx.keys.drop n).take orderKeys.length
  pre.length == n && mid.length == orderKeys.length &&
    sameKeySet pre queryKeys && mid == orderKeys

/-- Modelled from the spec: `Collection#findIndexForQueryAndOrder` of
`./collection` — the first declared index matching the pair, an error if none
does. -/
def Collection.findIndexForQueryAndOrder (c : Collection)
    (query : List (String × JsVal)) (order : List String) : Except String Index :=
  match c.indexes.find? (fun idx => indexMatchesQueryOrder idx (query.map Prod.fst) order) with
  | some idx => .ok idx
  | none => .error "Index not found for this query and order"

/-- A value stored in the KV engine: either an opaque structured value (an
item or an index-entry projection) or the store descriptor. -/
inductive StoredVal : Type where
  | val : JsVal → StoredVal
  | record : StoreRecord → StoredVal
deriving DecidableEq

/-- One KV pair.  `value = none` models an entry stored with an absent value
(as index entries without projection are). -/
structure KVEntry : Type where
  key : List JsVal
  value : Option StoredVal
deriving DecidableEq

/-- The ordered KV engine content, as an association list with unique keys. -/
abbrev KV := List KVEntry

def kvGet (kv : KV) (k : List JsVal) : Option (Option StoredVal) :=
  match kv with
  | [] => none
  | e :: rest => if e.key = k then some e.value else kvGet rest k

def kvPut (kv : KV) (k : List JsVal) (v : Option StoredVal) : KV :=
  match kv with
  | [] => [{ key := k, value := v }]
  | e :: rest => if e.key = k then { key := k, value := v } :: rest else e :: kvPut rest k v

def kvDel (kv : KV) (k : List JsVal) : KV :=
  match kv with
  | [] => []
  | e :: rest => if e.key = k then rest else e :: kvDel rest k

/-- Whether the tuple `pfx` is an element-wise leading part of the key `k`. -/
def keyHasPfx (pfx k : List JsVal) : Bool :=
  match pfx, k with
  | [], _ => true
  | _ :: _, [] => false
  | p :: ps, x :: xs => p == x && keyHasPfx ps xs

/-- Range scan of the KV content under a key tuple. -/
def kvScan (kv : KV) (pfx : List JsVal) : List KVEntry :=
  kv.filter (fun e => keyHasPfx pfx e.key)

/-- The KV content with every entry under the tuple removed
(`findAndDelete({prefix})` of the KV engine). -/
def kvDelPfx (kv : KV) (pfx : List JsVal) : KV :=
  kv.filter (fun e => !keyHasPfx pfx e.key)

/-- A logged KV write. -/
inductive KVWrite : Type where
  | put : List JsVal → Option StoredVal → KVWrite
  | del : List JsVal → KVWrite
deriving DecidableEq

/-- A logged KV read. -/
inductive KVRead : Type where
  | get : List JsVal → KVRead
  | getMany : List (List JsVal) → KVRead
  | scan : List JsVal → KVRead
deriving DecidableEq

/-- The document-store world: the KV content, the logs of KV writes, KV reads
and emitted events, and the per-context flags of the `DocumentStore` object.
`insideTransaction` models the source getter `this !== this.root`, true
exactly on the child view created by `transaction()`. -/
structure St : Type where
  kv : KV
  writes : List KVWrite
  reads : List KVRead
  events : List String
  hasBeenInitialized : Bool
  isInitializing : Bool
  migrationDidStartEventHasBeenEmitted : Bool
  insideTransaction : Bool
deriving DecidableEq

def St.emit (s : St) (ev : String) : St :=
  { s with events := s.events ++ [ev] }

def St.logRead (s : St) (r : KVRead) : St :=
  { s with reads := s.reads ++ [r] }

/-- Perform and log a KV put. -/
def stPut (s : St) (k : List JsVal) (v : Option StoredVal) : St :=
  { s with kv := kvPut s.kv k v, writes := s.writes ++ [.put k v] }

/-- Perform and log a KV delete. -/
def stDel (s : St) (k : List JsVal) : St :=
  { s with kv := kvDel s.kv k, writes := s.writes ++ [.del k] }

/-- Perform and log `findAndDelete({prefix})`: one logged delete per removed
entry. -/
def stDelPfx (s : St) (pfx : List JsVal) : St :=
  { s with kv := kvDelPfx s.kv pfx,
           writes := s.writes ++ (kvScan s.kv pfx).map (fun e => .del e.key) }

/-- The immutable part of a `DocumentStore` object: its name and its declared
collections. -/
structure DS : Type where
  name : String
  collections : List Collection

/-- Source `makeIndexName`: the declared key paths joined with the `+`
wire-format character. -/
def makeIndexName (keys : List String) : String :=
  String.intercalate "+" keys

/-- Source `makeIndexCollectionName`: the `collectionName:indexName`
namespace string. -/
def makeIndexCollectionName (collectionName indexName : String) : String :=
  collectionName ++ ":" ++ indexName

/-- Source `makeIndexKey`: `[storeName, indexCollectionName, ...values, key]`. -/
def makeIndexKey (ds : DS) (c : Collection) (idx : Index) (values : List JsVal)
    (key : JsVal) : List JsVal :=
  [.str ds.name, .str (makeIndexCollectionName c.name (makeIndexName idx.keys))]
    ++ values ++ [key]

/-- Source `makeItemKey`: `[storeName, collectionName, key]`. -/
def makeItemKey (ds : DS) (c : Collection) (key : JsVal) : List JsVal :=
  [.str ds.name, .str c.name, key]

/-- Source `makeIndexKeyForQuery`: pushes, for `i` below the number of query
keys, the query value at the i-th declared index key (the declaration order
of the index, not the order in which the caller listed the query keys).  When
`i` runs past the declared keys the JS lookup `query[keys[i]]` with
`keys[i] = undefined` yields `undefined`. -/
def makeIndexKeyForQuery (ds : DS) (c : Collection) (idx : Index)
    (query : List (String × JsVal)) : List JsVal :=
  let keys := idx.properties.map IndexProp.key
  [.str ds.name, .str (makeIndexCollectionName c.name (makeIndexName idx.keys))]
    ++ (List.range query.length).map (fun i =>
      match keys[i]? with
      | some k => (jsFieldLookup query k).getD .undefined
      | none => .undefined)

/-- JavaScript `typeof v === 'object'` (true on objects, arrays and `null`). -/
def jsIsObjectType : JsVal → Bool
  | .obj _ => true
  | .arr _ => true
  | .null => true
  | _ => false

/-- Source `normalizeKey`: non-number-non-string keys are rejected as
`Invalid key type`; falsy keys (the number 0, the empty string) are rejected
as `Specified key is null or empty`. -/
def normalizeKey (key : JsVal) : Except String JsVal :=
  match key with
  | .num _ | .str _ =>
    if jsTruthy key then .ok key else .error "Specified key is null or empty"
  | _ => .error "Invalid key type"

/-- Source `normalizeItem`: `!(item && typeof item === 'object')` is
rejected — i.e. an item is accepted exactly when it is truthy and of JS type
object (plain objects and arrays; `null` is falsy). -/
def normalizeItem (item : JsVal) : Except String JsVal :=
  if jsTruthy item && jsIsObjectType item then .ok item else .error "Invalid item type"

/-- The normalized `properties` option: `'*'` or an explicit path list
(`null`/absent-list inputs normalize to the empty path list). -/
inductive Props : Type where
  | all : Props
  | paths : List String → Props
deriving DecidableEq

/-- One index value of an item, as computed by `updateIndex`: `undefined`
when the item is absent, the flattened lookup for a simple property, and the
declared function applied to the raw item for a computed property. -/
def computeIndexValue (item : Option JsVal) (flatItem : List (String × JsVal))
    (p : IndexProp) : JsVal :=
  match item with
  | none => .undefined
  | some it =>
    match p.value with
    | none => (jsFieldLookup flatItem p.key).getD .undefined
    | some f => f it

/-- The projection record built by `updateIndex` over the flattened item: a
path contributes a field only when its flattened value is non-null; when no
path contributes, the projection stays the absent value (`none`), not an
empty object. -/
def makeProjection (paths : List String) (flatItem : List (String × JsVal)) :
    Option (List (String × JsVal)) :=
  match paths with
  | [] => none
  | k :: rest =>
    let v := (jsFieldLookup flatItem k).getD .undefined
    let tail := makeProjection rest flatItem
    if jsNonNull v then some ((k, v) :: tail.getD []) else tail

/-- The stored form of an optional projection: an object value, or the absent
value. -/
def projectionStoredVal (proj : Option (List (String × JsVal))) : Option StoredVal :=
  proj.map (fun fs => StoredVal.val (.obj fs))

/-- The value tuple of an (optional) item under an index, as `updateIndex`
computes it (`oldValues`/`newValues`). -/
def indexValuesOf (item : Option JsVal) (idx : Index) : List JsVal :=
  idx.properties.map (computeIndexValue item (flattenItem item))

/-- The projection of an (optional) item under an index, as `updateIndex`
computes it (`oldProjection`/`newProjection`); `none` both when the index
declares no projection and when no projection path yields a non-null value. -/
def indexProjectionOf (item : Option JsVal) (idx : Index) : Option (List (String × JsVal)) :=
  match idx.projection with
  | none => none
  | some ps => makeProjection ps (flattenItem item)

/-- Source `updateIndex` (lines 357-400), as the list of KV writes it
performs: the old entry is deleted iff the value tuples differ deeply and no
old value is `undefined`; the new entry is written iff the value tuples or
the projections differ and no new value is `undefined`, and the written value
is the new projection. -/
def updateIndexOps (ds : DS) (c : Collection) (key : JsVal)
    (oldItem newItem : Option JsVal) (idx : Index) : List KVWrite :=
  let oldValues := indexValuesOf oldItem idx
  let newValues := indexValuesOf newItem idx
  let oldProjection := indexProjectionOf oldItem idx
  let newProjection := indexProjectionOf newItem idx
  let valuesAreDifferent := !(jsEqualVals oldValues newValues)
  let projectionIsDifferent := !(jsEqualOptObj oldProjection newProjection)
  (if valuesAreDifferent && !(oldValues.contains .undefined) then
    [KVWrite.del (makeIndexKey ds c idx oldValues key)]
  else []) ++
  (if (valuesAreDifferent || projectionIsDifferent) && !(newValues.contains .undefined) then
    [KVWrite.put (makeIndexKey ds c idx newValues key) (projectionStoredVal newProjection)]
  else [])

/-- Apply a list of KV writes to the state (logging each). -/
def stApplyWrites (s : St) (ws : List KVWrite) : St :=
  ws.foldl (fun s w =>
    match w with
    | .put k v => stPut s k v
    | .del k => stDel s k) s

/-- Source `updateIndexes`: every declared index of the collection, in
declaration order. -/
def updateIndexesSt (ds : DS) (c : Collection) (key : JsVal)
    (oldItem newItem : Option JsVal) (s : St) : St :=
  c.indexes.foldl (fun s idx => stApplyWrites s (updateIndexOps ds c key oldItem newItem idx)) s

/-- The current schema version (`VERSION`). -/
def VERSION : Int := 3

/-- The metadata key of the store descriptor: `[storeName]`. -/
def recordKey (ds : DS) : List JsVal :=
  [.str ds.name]

/-- Source `_loadDocumentStoreRecord` with `errorIfMissing = false`. -/
def loadRecordOpt (ds : DS) (s : St) : Option StoreRecord × St :=
  let s := s.logRead (.get (recordKey ds))
  match kvGet s.kv (recordKey ds) with
  | some (some (.record r)) => (some r, s)
  | _ => (none, s)

/-- Source `_loadDocumentStoreRecord` with `errorIfMissing = true` (the
default): the KV get throws when the descriptor is missing. -/
def loadRecordReq (ds : DS) (s : St) : Except String StoreRecord × St :=
  let s := s.logRead (.get (recordKey ds))
  match kvGet s.kv (recordKey ds) with
  | some (some (.record r)) => (.ok r, s)
  | _ => (.error "Missing document store record", s)

/-- Source `_saveDocumentStoreRecord` in its `errorIfExists = false`,
`createIfMissing = true` form (every call but the creation one). -/
def saveRecordOk (ds : DS) (r : StoreRecord) (s : St) : St :=
  stPut s (recordKey ds) (some (.record r))

/-- Source `createDocumentStoreIfDoesNotExist`: inside a KV transaction
(modelled directly, single process), read the descriptor; when absent, write
the fresh descriptor (with `errorIfExists = true`) and emit `didCreate`. -/
def createDocumentStoreIfDoesNotExist (ds : DS) (s : St) : Except String Bool × St :=
  match loadRecordOpt ds s with
  | (some _, s1) => (.ok false, s1)
  | (none, s1) =>
    let record : StoreRecord :=
      { name := ds.name, version := VERSION, isLocked := false,
        collections := ds.collections.map Collection.toJSON,
        lastMigrationNumber := none, tables := none }
    if (kvGet s1.kv (recordKey ds)).isSome then
      (.error "Item already exists", s1)
    else
      (.ok true, (saveRecordOk ds record s1).emit "didCreate")

/-- Source `lockDocumentStore`: in a KV transaction, read the descriptor and
set `isLocked` when it is clear.  The source otherwise sleeps 5 seconds and
retries forever; in this single-process embedding no other initializer can
ever clear the flag, so the blocked retry loop is modelled as an error
outcome (no claim exercises the locked case). -/
def lockDocumentStore (ds : DS) (s : St) : Except String Unit × St :=
  match loadRecordReq ds s with
  | (.error e, s1) => (.error e, s1)
  | (.ok r, s1) =>
    if r.isLocked then
      (.error "Blocked waiting for the document store to unlock", s1)
    else
      (.ok (), saveRecordOk ds { r with isLocked := true } s1)

/-- Source `unlockDocumentStore`: read the descriptor, clear `isLocked`,
save. -/
def unlockDocumentStore (ds : DS) (s : St) : Except String Unit × St :=
  match loadRecordReq ds s with
  | (.error e, s1) => (.error e, s1)
  | (.ok r, s1) => (.ok (), saveRecordOk ds { r with isLocked := false } s1)

/-- The version-below-2 fixups of `upgradeDocumentStore`: drop the legacy
`lastMigrationNumber` field and rewrite `tables[*].indexes` as the list of
the index names (the JS lookup `index.name`, `undefined` on entries without
the field).  When the descriptor carries no `tables` field the JS
`record.tables.forEach` throws a `TypeError`. -/
def upgradeFixupsV1 (r : StoreRecord) : Except String StoreRecord :=
  match r.tables with
  | none => .error "TypeError: record.tables is undefined"
  | some ts =>
    .ok { r with lastMigrationNumber := none,
                 tables := some (ts.map (fun t =>
                   { indexes := t.indexes.map (fun v => jsGetField v "name") })) }

/-- Source `upgradeDocumentStore` (lines 119-149): nothing at the current
version, an error on a newer descriptor, and for older descriptors the
below-2 fixups followed by the fatal below-3 check (so the final save and
`upgradeDidStop` are dead code at `VERSION = 3`, kept here to mirror the
source). -/
def upgradeDocumentStore (ds : DS) (s : St) : Except String Unit × St :=
  match loadRecordReq ds s with
  | (.error e, s1) => (.error e, s1)
  | (.ok r, s1) =>
    if r.version = VERSION then (.ok (), s1)
    else if r.version > VERSION then (.error "Cannot downgrade the document store", s1)
    else
      let s2 := s1.emit "upgradeDidStart"
      match (if r.version < 2 then upgradeFixupsV1 r else .ok r) with
      | .error e => (.error e, s2)
      | .ok r2 =>
        if r.version < 3 then
          (.error "Cannot upgrade the document store to version 3 automatically", s2)
        else
          (.ok (), (saveRecordOk ds { r2 with version := VERSION } s2).emit "upgradeDidStop")

/-- Source `verifyDocumentStore`: a reserved no-op hook. -/
def verifyDocumentStore (_ds : DS) (s : St) : Except String Unit × St :=
  (.ok (), s)

/-- Source `_emitMigrationDidStart`: emit the event only once per run. -/
def emitMigrationDidStart (s : St) : St :=
  if s.migrationDidStartEventHasBeenEmitted then s
  else { s.emit "migrationDidStart" with migrationDidStartEventHasBeenEmitted := true }

/-- Source `_emitMigrationDidStop`: emit `migrationDidStop` exactly when
`migrationDidStart` had been emitted, and clear the flag. -/
def emitMigrationDidStop (s : St) : St :=
  if s.migrationDidStartEventHasBeenEmitted then
    { s.emit "migrationDidStop" with migrationDidStartEventHasBeenEmitted := false }
  else s

/-- Source `_removeIndex`: a KV range delete at the index-collection tuple. -/
def removeIndex (ds : DS) (collectionName : String) (indexKeys : List String) (s : St) : St :=
  stDelPfx s [.str ds.name, .str (makeIndexCollectionName collectionName (makeIndexName indexKeys))]

/-- Source `_addIndex`: visit every item of the collection and invoke
`updateIndex(collection, key, undefined, item, index)` on it.  The source
pages through the items with `forEach` (batches of 250 via `find`); since the
index writes never fall under the scanned item tuple and the nested
initialize call is a no-op while initializing, the visit is modelled as one
scan over the collection tuple. -/
def addIndex (ds : DS) (c : Collection) (idx : Index) (s : St) : St :=
  let itemPfx : List JsVal := [.str ds.name, .str c.name]
  let entries := kvScan s.kv itemPfx
  let s := s.logRead (.scan itemPfx)
  entries.foldl (fun s e =>
    let key := e.key.getLast?.getD .undefined
    let item := match e.value with
      | some (.val v) => some v
      | _ => none
    stApplyWrites s (updateIndexOps ds c key none item idx)) s

/-- Replace the first collection descriptor with the given name (the JS code
mutates the aliased element of `record.collections` in place). -/
def replaceFirstByName (cs : List CollectionDesc) (e : CollectionDesc) : List CollectionDesc :=
  match cs with
  | [] => []
  | c0 :: rest => if c0.name = e.name then e :: rest else c0 :: replaceFirstByName rest e

/-- Remove the first index descriptor with the given keys (the
`findIndex`/`splice` step of `migrateDocumentStore`). -/
def eraseFirstIndexDesc (xs : List IndexDesc) (ks : List String) : List IndexDesc :=
  match xs with
  | [] => []
  | x :: rest => if x.keys = ks then rest else x :: eraseFirstIndexDesc rest ks

/-- The added-indexes loop of `migrateDocumentStore`: each declared index not
present in the persisted descriptor (matched by `keys` equality) is built via
`_addIndex`, appended to the descriptor, and the record saved. -/
def migrateAddIndexes (ds : DS) (c : Collection) (idxs : List Index)
    (e : CollectionDesc) (r : StoreRecord) (s : St) : CollectionDesc × StoreRecord × St :=
  match idxs with
  | [] => (e, r, s)
  | idx :: rest =>
    if (e.indexes.find? (fun ex => ex.keys == idx.keys)).isSome then
      migrateAddIndexes ds c rest e r s
    else
      let s := emitMigrationDidStart s
      let s := addIndex ds c idx s
      let e2 := { e with indexes := e.indexes ++ [idx.toJSON] }
      let r2 := { r with collections := replaceFirstByName r.collections e2 }
      let s := saveRecordOk ds r2 s
      migrateAddIndexes ds c rest e2 r2 s

/-- The removed-indexes loop of `migrateDocumentStore`: every persisted keys
tuple (snapshot taken after the additions) that is no longer declared is torn
down via `_removeIndex`, spliced out, and the record saved. -/
def migrateRemoveIndexes (ds : DS) (c : Collection) (keysList : List (List String))
    (e : CollectionDesc) (r : StoreRecord) (s : St) : CollectionDesc × StoreRecord × St :=
  match keysList with
  | [] => (e, r, s)
  | ks :: rest =>
    if (c.indexes.find? (fun idx => idx.keys == ks)).isSome then
      migrateRemoveIndexes ds c rest e r s
    else
      let s := emitMigrationDidStart s
      let s := removeIndex ds c.name ks s
      let e2 := { e with indexes := eraseFirstIndexDesc e.indexes ks }
      let r2 := { r with collections := replaceFirstByName r.collections e2 }
      let s := saveRecordOk ds r2 s
      migrateRemoveIndexes ds c rest e2 r2 s

/-- One declared collection of the added-or-updated loop of
`migrateDocumentStore`: append a missing descriptor, fail on a tombstoned
one, otherwise reconcile its indexes. -/
def migrateCollection (ds : DS) (c : Collection) (r : StoreRecord) (s : St) :
    Except String StoreRecord × St :=
  match r.collections.find? (fun c0 => c0.name == c.name) with
  | none =>
    let s := emitMigrationDidStart s
    let r2 := { r with collections := r.collections ++ [c.toJSON] }
    (.ok r2, saveRecordOk ds r2 s)
  | some e =>
    if e.hasBeenRemoved then
      (.error "Adding a collection that has been removed is not implemented yet", s)
    else
      let (e2, r2, s2) := migrateAddIndexes ds c c.indexes e r s
      let (_, r3, s3) := migrateRemoveIndexes ds c (e2.indexes.map IndexDesc.keys) e2 r2 s2
      (.ok r3, s3)

/-- The added-or-updated collections loop of `migrateDocumentStore`. -/
def migratePhase1 (ds : DS) (cs : List Collection) (r : StoreRecord) (s : St) :
    Except String StoreRecord × St :=
  match cs with
  | [] => (.ok r, s)
  | c :: rest =>
    match migrateCollection ds c r s with
    | (.error e, s1) => (.error e, s1)
    | (.ok r1, s1) => migratePhase1 ds rest r1 s1

/-- One persisted collection of the removed-collections loop of
`migrateDocumentStore`: a live descriptor with no matching declaration has
its indexes torn down, its index list cleared and its tombstone set. -/
def migratePhase2Step (ds : DS) (e : CollectionDesc) (r : StoreRecord) (s : St) :
    StoreRecord × St :=
  if e.hasBeenRemoved then (r, s)
  else if (ds.collections.find? (fun c => c.name == e.name)).isSome then (r, s)
  else
    let s := emitMigrationDidStart s
    let s := e.indexes.foldl (fun s ix => removeIndex ds e.name ix.keys s) s
    let e2 := { e with indexes := [], hasBeenRemoved := true }
    let r2 := { r with collections := replaceFirstByName r.collections e2 }
    (r2, saveRecordOk ds r2 s)

/-- The removed-collections loop of `migrateDocumentStore`. -/
def migratePhase2 (ds : DS) (es : List CollectionDesc) (r : StoreRecord) (s : St) :
    StoreRecord × St :=
  match es with
  | [] => (r, s)
  | e :: rest =>
    let (r1, s1) := migratePhase2Step ds e r s
    migratePhase2 ds rest r1 s1

/-- Source `migrateDocumentStore` (lines 155-216): load the descriptor, then
run both reconciliation loops inside a `try` whose `finally` always runs
`_emitMigrationDidStop`. -/
def migrateDocumentStore (ds : DS) (s : St) : Except String Unit × St :=
  match loadRecordReq ds s with
  | (.error e, s1) => (.error e, s1)
  | (.ok r, s1) =>
    match migratePhase1 ds ds.collections r s1 with
    | (.error e, s2) => (.error e, emitMigrationDidStop s2)
    | (.ok r2, s2) =>
      let (_, s3) := migratePhase2 ds r2.collections r2 s2
      (.ok (), emitMigrationDidStop s3)

/-- The upgrade/verify/migrate sequence guarded by the schema lock. -/
def initUpgradeVerifyMigrate (ds : DS) (s : St) : Except String Unit × St :=
  match upgradeDocumentStore ds s with
  | (.error e, s1) => (.error e, s1)
  | (.ok _, s1) =>
    match verifyDocumentStore ds s1 with
    | (.error e, s2) => (.error e, s2)
    | (.ok _, s2) => migrateDocumentStore ds s2

/-- The tail of a successful initialization: set the flag and emit
`didInitialize`. -/
def finishInit (s : St) : Except String Unit × St :=
  (.ok (), { s with hasBeenInitialized := true }.emit "didInitialize")

/-- The body of `initializeDocumentStore` after the re-entry checks: create,
else lock then upgrade/verify/migrate with the scoped unlock (the source
`finally`: the unlock runs on every exit path, and an error of the unlock
itself replaces the body error, as a JS `finally` throw does). -/
def initializeBody (ds : DS) (s : St) : Except String Unit × St :=
  match createDocumentStoreIfDoesNotExist ds s with
  | (.error e, s1) => (.error e, s1)
  | (.ok true, s1) => finishInit s1
  | (.ok false, s1) =>
    match lockDocumentStore ds s1 with
    | (.error e, s2) => (.error e, s2)
    | (.ok _, s2) =>
      let (res, s3) := initUpgradeVerifyMigrate ds s2
      match unlockDocumentStore ds s3 with
      | (.error e2, s4) => (.error e2, s4)
      | (.ok _, s4) =>
        match res with
        | .error e => (.error e, s4)
        | .ok _ => finishInit s4

/-- Source `initializeDocumentStore` (lines 46-70): return at once when
already initialized or re-entered while initializing, fail inside a
transaction, and otherwise run the body with `isInitializing` scoped by the
outer `try`/`finally`. -/
def initializeDocumentStore (ds : DS) (s : St) : Except String Unit × St :=
  if s.hasBeenInitialized then (.ok (), s)
  else if s.isInitializing then (.ok (), s)
  else if s.insideTransaction then
    (.error "Cannot initialize the document store inside a transaction", s)
  else
    let (res, s1) := initializeBody ds { s with isInitializing := true }
    (res, { s1 with isInitializing := false })

/-- Source `destroyAll` (lines 311-317): forbidden inside a transaction;
otherwise reset the initialization flag and range-delete everything under
`[storeName]`. -/
def destroyAll (ds : DS) (s : St) : Except String Unit × St :=
  if s.insideTransaction then
    (.error "Cannot destroy a document store inside a transaction", s)
  else
    (.ok (), stDelPfx { s with hasBeenInitialized := false } [.str ds.name])

/-- One element of a result list: the item key (the last element of the KV
key) and, when values were requested, the value (`none` models an absent or
`undefined` value field). -/
structure ResultItem : Type where
  key : JsVal
  value : Option JsVal
deriving DecidableEq

/-- Decode a KV entry value as an opaque structured value (`undefined` when
absent). -/
def decodeVal : Option StoredVal → Option JsVal
  | some (.val v) => some v
  | _ => none

/-- Source `transaction` (lines 648-656): a nested call runs the body
directly on the ambient context; an outer call first initializes the store,
then runs the body on a child view whose `insideTransaction` is true, and
commits on success or rolls the KV content back on failure (events stay
emitted, as listeners already ran). -/
def runTransaction {Alpha : Type} (ds : DS) (body : St → Except String Alpha × St)
    (s : St) : Except String Alpha × St :=
  if s.insideTransaction then body s
  else
    match initializeDocumentStore ds s with
    | (.error e, s1) => (.error e, s1)
    | (.ok _, s1) =>
      let (res, s2) := body { s1 with insideTransaction := true }
      let s3 := { s2 with insideTransaction := false }
      match res with
      | .ok a => (.ok a, s3)
      | .error e => (.error e, { s3 with kv := s1.kv, writes := s1.writes })

namespace DocumentStore

/-- Source `get` (lines 438-445): normalize, initialize, then a KV get at the
item key honoring `errorIfMissing`. -/
def get (ds : DS) (c : Collection) (key : JsVal) (errorIfMissing : Bool) (s : St) :
    Except String (Option JsVal) × St :=
  match normalizeKey key with
  | .error e => (.error e, s)
  | .ok k =>
    match initializeDocumentStore ds s with
    | (.error e, s1) => (.error e, s1)
    | (.ok _, s1) =>
      let itemKey := makeItemKey ds c k
      let s2 := s1.logRead (.get itemKey)
      match kvGet s2.kv itemKey with
      | some v => (.ok (decodeVal v), s2)
      | none =>
        if errorIfMissing then (.error "Missing item", s2) else (.ok none, s2)

/-- Source `put` (lines 452-465) with the default options
(`createIfMissing = true`, `errorIfExists = false`): normalize, initialize,
then in one transaction read the old item, write the new one, maintain every
index and emit `didPutItem`. -/
def put (ds : DS) (c : Collection) (key item : JsVal) (s : St) :
    Except String Unit × St :=
  match normalizeKey key with
  | .error e => (.error e, s)
  | .ok k =>
    match normalizeItem item with
    | .error e => (.error e, s)
    | .ok it =>
      match initializeDocumentStore ds s with
      | (.error e, s1) => (.error e, s1)
      | (.ok _, s1) =>
        runTransaction ds (fun tr =>
          let itemKey := makeItemKey ds c k
          let tr := tr.logRead (.get itemKey)
          let oldItem := decodeVal ((kvGet tr.kv itemKey).getD none)
          let tr := stPut tr itemKey (some (.val it))
          let tr := updateIndexesSt ds c k oldItem (some it) tr
          (.ok (), tr.emit "didPutItem")) s1

/-- Source `delete` (lines 469-485): normalize, initialize, then in one
transaction read the old item (honoring `errorIfMissing`), and when present
delete it, maintain every index and emit `didDeleteItem`; returns whether a
delete occurred. -/
def delete (ds : DS) (c : Collection) (key : JsVal) (errorIfMissing : Bool) (s : St) :
    Except String Bool × St :=
  match normalizeKey key with
  | .error e => (.error e, s)
  | .ok k =>
    match initializeDocumentStore ds s with
    | (.error e, s1) => (.error e, s1)
    | (.ok _, s1) =>
      runTransaction ds (fun tr =>
        let itemKey := makeItemKey ds c k
        let tr := tr.logRead (.get itemKey)
        match kvGet tr.kv itemKey with
        | some (some (.val v)) =>
          let tr := stDel tr itemKey
          let tr := updateIndexesSt ds c k (some v) none tr
          (.ok true, tr.emit "didDeleteItem")
        | _ =>
          if errorIfMissing then (.error "Missing item", tr)
          else (.ok false, tr)) s1

/-- Whether a `properties` option requests values
(`properties === '*' || properties.length`). -/
def wantsValues : Props → Bool
  | .all => true
  | .paths ps => !ps.isEmpty

/-- Source `getMany` (lines 490-510) with `errorIfMissing = false` as its
callers inside `_findWithIndex` use it (the external KV `getMany` is modelled
as returning the found pairs): empty input returns empty before any
normalization; each output element carries the last key element and, when
values were requested, the stored value. -/
def getMany (ds : DS) (c : Collection) (keys : List JsVal) (properties : Props) (s : St) :
    Except String (List ResultItem) × St :=
  if keys.isEmpty then (.ok [], s)
  else
    match keys.mapM normalizeKey with
    | .error e => (.error e, s)
    | .ok ks =>
      let returnValues := wantsValues properties
      match initializeDocumentStore ds s with
      | (.error e, s1) => (.error e, s1)
      | (.ok _, s1) =>
        let itemKeys := ks.map (makeItemKey ds c)
        let s2 := s1.logRead (.getMany itemKeys)
        let found := itemKeys.filterMap (fun ik =>
          (kvGet s2.kv ik).map (fun v => KVEntry.mk ik v))
        (.ok (found.map (fun e =>
          { key := e.key.getLast?.getD .undefined,
            value := if returnValues then decodeVal e.value else none })), s2)

/-- Source `_findWithIndex` (lines 545-583): select the index, decide the
fetch strategy (`'*'` forces an item fetch; declared properties inside the
index projection take the projection fast-path; anything else falls back to
an item fetch), scan the KV prefix built by `makeIndexKeyForQuery` with
`returnValues = useProjection`, and follow up with `getMany` only when full
items are needed. -/
def findWithIndex (ds : DS) (c : Collection) (opts_query : List (String × JsVal))
    (opts_order : List String) (properties : Props) (s : St) :
    Except String (List ResultItem) × St :=
  match c.findIndexForQueryAndOrder opts_query opts_order with
  | .error e => (.error e, s)
  | .ok idx =>
    let strategy : Bool × Bool :=
      match properties with
      | .all => (true, false)
      | .paths ps =>
        if ps.isEmpty then (false, false)
        else
          let diff := ps.filter (fun p => !((idx.projection.getD []).contains p))
          if diff.isEmpty then (false, true) else (true, false)
    let fetchItem := strategy.1
    let useProjection := strategy.2
    let pfx := makeIndexKeyForQuery ds c idx opts_query
    match initializeDocumentStore ds s with
    | (.error e, s1) => (.error e, s1)
    | (.ok _, s1) =>
      let entries := kvScan s1.kv pfx
      let s2 := s1.logRead (.scan pfx)
      let items := entries.map (fun e =>
        { key := e.key.getLast?.getD .undefined,
          value := if useProjection then decodeVal e.value else none : ResultItem })
      if fetchItem then
        getMany ds c (items.map ResultItem.key) .all s2
      else
        (.ok items, s2)

/-- Source `find` (lines 523-543) restricted to the options the claims
exercise (`query`, `order`, `properties`; the range/limit options are passed
through to the KV engine untouched and are not modelled): an empty query and
order scan the collection tuple directly, anything else goes through the
index path. -/
def find (ds : DS) (c : Collection) (opts_query : List (String × JsVal))
    (opts_order : List String) (properties : Props) (s : St) :
    Except String (List ResultItem) × St :=
  if !opts_query.isEmpty || !opts_order.isEmpty then
    findWithIndex ds c opts_query opts_order properties s
  else
    let pfx : List JsVal := [.str ds.name, .str c.name]
    let returnValues := wantsValues properties
    match initializeDocumentStore ds s with
    | (.error e, s1) => (.error e, s1)
    | (.ok _, s1) =>
      let entries := kvScan s1.kv pfx
      let s2 := s1.logRead (.scan pfx)
      (.ok (entries.map (fun e =>
        { key := e.key.getLast?.getD .undefined,
          value := if returnValues then decodeVal e.value else none })), s2)

/-- Source `_countWithIndex` (lines 598-604): the KV count at the prefix
built by `makeIndexKeyForQuery`. -/
def countWithIndex (ds : DS) (c : Collection) (opts_query : List (String × JsVal))
    (opts_order : List String) (s : St) : Except String Nat × St :=
  match c.findIndexForQueryAndOrder opts_query opts_order with
  | .error e => (.error e, s)
  | .ok idx =>
    let pfx := makeIndexKeyForQuery ds c idx opts_query
    match initializeDocumentStore ds s with
    | (.error e, s1) => (.error e, s1)
    | (.ok _, s1) => (.ok (kvScan s1.kv pfx).length, s1.logRead (.scan pfx))

/-- Source `count` (lines 586-596): the KV count at the collection tuple, or
the index path when a query or order is supplied. -/
def count (ds : DS) (c : Collection) (opts_query : List (String × JsVal))
    (opts_order : List String) (s : St) : Except String Nat × St :=
  if !opts_query.isEmpty || !opts_order.isEmpty then
    countWithIndex ds c opts_query opts_order s
  else
    let pfx : List JsVal := [.str ds.name, .str c.name]
    match initializeDocumentStore ds s with
    | (.error e, s1) => (.error e, s1)
    | (.ok _, s1) => (.ok (kvScan s1.kv pfx).length, s1.logRead (.scan pfx))

end DocumentStore

/-- The item stored at the item key of `k`, when present. -/
def itemAt (s : St) (ds : DS) (c : Collection) (k : JsVal) : Option JsVal :=
  match kvGet s.kv (makeItemKey ds c k) with
  | some (some (.val v)) => some v
  | _ => none

/-- Restriction of a result list to the given property paths, following the
spec's words "the same query with `properties = '*'` restricted to `P`": each
value is replaced by its projection onto the paths (non-null values only,
absent when none contributes), exactly as index projections are built. -/
def restrictResults (rs : List ResultItem) (ps : List String) : List ResultItem :=
  rs.map (fun ri =>
    { key := ri.key, value := (makeProjection ps (flattenItem ri.value)).map JsVal.obj })

/-- A fresh engine state over the given KV content, with the store already
initialized in-process and empty logs. -/
def mkInitializedSt (kv : KV) : St :=
  { kv := kv, writes := [], reads := [], events := [], hasBeenInitialized := true,
    isInitializing := false, migrationDidStartEventHasBeenEmitted := false,
    insideTransaction := false }

/-- A fresh engine state over the given KV content, before any in-process
initialization (a new process opening the store). -/
def mkFreshSt (kv : KV) : St :=
  { kv := kv, writes := [], reads := [], events := [], hasBeenInitialized := false,
    isInitializing := false, migrationDidStartEventHasBeenEmitted := false,
    insideTransaction := false }

/-- The simple index `{keys: ["lastName"]}` of the end-to-end scenarios. -/
def lastNameIndex : Index :=
  { properties := [{ key := "lastName", value := none }], projection := none }

/-- The collection `People` with the `lastName` index. -/
def peopleCollection : Collection :=
  { name := "People", indexes := [lastNameIndex] }

/-- The store `S` of the end-to-end scenarios. -/
def storeS : DS :=
  { name := "S", collections := [peopleCollection] }

/-- The item `{firstName: "Ada", lastName: "L"}`. -/
def adaItem : JsVal :=
  .obj [("firstName", .str "Ada"), ("lastName", .str "L")]

/-- An index-free collection. -/
def noIndexCollection : Collection :=
  { name := "Things", indexes := [] }

/-- A store with only the index-free collection. -/
def storeT : DS :=
  { name := "T", collections := [noIndexCollection] }

/-- The index `{keys: ["lastName"], projection: ["firstName", "age"]}` of the
projection scenarios. -/
def projIndex : Index :=
  { properties := [{ key := "lastName", value := none }], projection := some ["firstName", "age"] }

/-- The collection `People` with the projecting index. -/
def projCollection : Collection :=
  { name := "People", indexes := [projIndex] }

/-- The store `P` of the projection scenarios. -/
def storeP : DS :=
  { name := "P", collections := [projCollection] }

/-- The item `{firstName: "Ada", age: 36, lastName: "L"}`. -/
def adaItem3 : JsVal :=
  .obj [("firstName", .str "Ada"), ("age", .num 36), ("lastName", .str "L")]

/-- The state after putting `adaItem3` under key `u1` into store `P`. -/
def projPutSt : St :=
  (DocumentStore.put storeP projCollection (.str "u1") adaItem3 (mkInitializedSt [])).2

/-- The persisted descriptor of store `S` as its creation writes it. -/
def recordS : StoreRecord :=
  { name := "S", version := 3, isLocked := false,
    collections := [peopleCollection.toJSON], lastMigrationNumber := none, tables := none }

/-- A second process opening the already-created store `S`. -/
def secondProcessSt : St :=
  mkFreshSt [{ key := [.str "S"], value := some (.record recordS) }]

/-- A version-1 descriptor as found in the wild: it carries the legacy
`lastMigrationNumber` and `tables` fields, the latter holding index records
with a `name` field next to one already rewritten to a plain name. -/
def recordV1 : StoreRecord :=
  { name := "S", version := 1, isLocked := false, collections := [],
    lastMigrationNumber := some 7,
    tables := some [{ indexes := [.obj [("name", .str "byName")], .str "plain"] }] }

/-- A process opening a store whose descriptor is still at version 1. -/
def v1ProcessSt : St :=
  mkFreshSt [{ key := [.str "S"], value := some (.record recordV1) }]

/-- The store descriptor is present (as a record) in the KV content. -/
def recordPresent (ds : DS) (s : St) : Prop :=
  ∃ r2, kvGet s.kv (recordKey ds) = some (some (StoredVal.record r2))

/-- The key a KV write touches. -/
def kvWriteKey : KVWrite → List JsVal
  | .put k _ => k
  | .del k => k

/-- The event log together with the migration-start flag (the part of the
state `_emitMigrationDidStart`/`Stop` reason about). -/
def evProj (s : St) : List String × Bool :=
  (s.events, s.migrationDidStartEventHasBeenEmitted)

/-- Invariant of a migration run: no `migrationDidStop` emitted yet, and
`migrationDidStart` emitted exactly when the flag is set. -/
def migP (s : St) : Prop :=
  s.events.count "migrationDidStop" = 0 ∧
  s.events.count "migrationDidStart" =
    (if s.migrationDidStartEventHasBeenEmitted then 1 else 0)

/-- A descriptor of store `S` whose `People` collection is tombstoned:
re-declaring it makes `migrateDocumentStore` throw. -/
def tombstonedRecord : StoreRecord :=
  { name := "S", version := 3, isLocked := false,
    collections := [{ name := "People", hasBeenRemoved := true, indexes := [] }],
    lastMigrationNumber := none, tables := none }

/-- A fresh process opening store `S` whose persisted `People` is tombstoned. -/
def tombstonedSt : St :=
  mkFreshSt [{ key := [.str "S"], value := some (.record tombstonedRecord) }]

/-- Whether a value is a scalar (string, number, boolean), `null` or
`undefined` — the item shapes the claim says `put` rejects. -/
def isScalarOrNullish : JsVal → Bool
  | .boolean _ => true
  | .num _ => true
  | .str _ => true
  | .null => true
  | .undefined => true
  | _ => false

theorem makeProjection_eq_none_iff (ps : List String) (flat : List (String × JsVal)) :
    makeProjection ps flat = none ↔
      ∀ p ∈ ps, jsNonNull ((jsFieldLookup flat p).getD .undefined) = false := by
  induction ps with
  | nil => simp [makeProjection]
  | cons k rest ih =>
    by_cases h : jsNonNull ((jsFieldLookup flat k).getD .undefined) = true
    · simp [makeProjection, h]
    · simp only [Bool.not_eq_true] at h
      simp [makeProjection, h, ih]

/-- C1: for every call to `updateIndex`, the old index entry (keyed by the
old value tuple) is deleted iff the value tuples differ under deep comparison
and no old value is `undefined`; a new entry is written iff the value tuples
or the projections differ and no new value is `undefined`; every written
entry sits at the new value tuple's key and carries the new projection, which
is the absent value exactly when no projection path yields a non-null
flattened value. -/
theorem c1_updateIndex_differential (ds : DS) (c : Collection) (key : JsVal)
    (oldItem newItem : Option JsVal) (idx : Index) :
    (KVWrite.del (makeIndexKey ds c idx (indexValuesOf oldItem idx) key) ∈
        updateIndexOps ds c key oldItem newItem idx ↔
      jsEqualVals (indexValuesOf oldItem idx) (indexValuesOf newItem idx) = false ∧
        (indexValuesOf oldItem idx).contains .undefined = false) ∧
    ((∃ k v, KVWrite.put k v ∈ updateIndexOps ds c key oldItem newItem idx) ↔
      (jsEqualVals (indexValuesOf oldItem idx) (indexValuesOf newItem idx) = false ∨
        jsEqualOptObj (indexProjectionOf oldItem idx) (indexProjectionOf newItem idx) = false) ∧
        (indexValuesOf newItem idx).contains .undefined = false) ∧
    (∀ k v, KVWrite.put k v ∈ updateIndexOps ds c key oldItem newItem idx →
      k = makeIndexKey ds c idx (indexValuesOf newItem idx) key ∧
        v = projectionStoredVal (indexProjectionOf newItem idx)) ∧
    (∀ ps, idx.projection = some ps →
      (indexProjectionOf newItem idx = none ↔
        ∀ p ∈ ps, jsNonNull ((jsFieldLookup (flattenItem newItem) p).getD .undefined) = false)) := by
  refine ⟨?_, ?_, ?_, ?_⟩
  · cases hv : jsEqualVals (indexValuesOf oldItem idx) (indexValuesOf newItem idx) <;>
      cases ho : (indexValuesOf oldItem idx).contains .undefined <;>
        simp [updateIndexOps, hv, ho] <;> simpa using ho
  · cases hv : jsEqualVals (indexValuesOf oldItem idx) (indexValuesOf newItem idx) <;>
      cases hp : jsEqualOptObj (indexProjectionOf oldItem idx) (indexProjectionOf newItem idx) <;>
        cases hn : (indexValuesOf newItem idx).contains .undefined <;>
          simp [updateIndexOps, hv, hp, hn] <;> simpa using hn
  · intro k v hkv
    cases hv : jsEqualVals (indexValuesOf oldItem idx) (indexValuesOf newItem idx) <;>
      cases hp : jsEqualOptObj (indexProjectionOf oldItem idx) (indexProjectionOf newItem idx) <;>
        cases hn : (indexValuesOf newItem idx).contains .undefined <;>
          simp [updateIndexOps, hv, hp, hn] at hkv <;> simp [hkv]
  · intro ps hps
    simp [indexProjectionOf, hps, makeProjection_eq_none_iff]

/-- C2: the item of key `k` in collection `C` of store `S` is stored at the
KV key `[S, C.name, k]`; every index entry of an index `X` with value tuple
`v1..vN` is stored at `[S, C.name ++ ":" ++ join(X.keys, "+"), v1..vN, k]`;
and concretely, after `put("People", "u1", {firstName: "Ada", lastName: "L"})`
on store `S` with the index `{keys: ["lastName"]}` the item sits at
`["S", "People", "u1"]` and the index entry at
`["S", "People:lastName", "L", "u1"]` with the absent value. -/
theorem c2_key_layout :
    (∀ (ds : DS) (c : Collection) (k : JsVal),
      makeItemKey ds c k = [.str ds.name, .str c.name, k]) ∧
    (∀ (ds : DS) (c : Collection) (idx : Index) (vals : List JsVal) (k : JsVal),
      makeIndexKey ds c idx vals k =
        [.str ds.name, .str (c.name ++ ":" ++ String.intercalate "+" idx.keys)] ++ vals ++ [k]) ∧
    (DocumentStore.put storeS peopleCollection (.str "u1") adaItem (mkInitializedSt [])).1
      = .ok () ∧
    kvGet (DocumentStore.put storeS peopleCollection (.str "u1") adaItem (mkInitializedSt [])).2.kv
        [.str "S", .str "People", .str "u1"] = some (some (.val adaItem)) ∧
    kvGet (DocumentStore.put storeS peopleCollection (.str "u1") adaItem (mkInitializedSt [])).2.kv
        [.str "S", .str "People:lastName", .str "L", .str "u1"] = some none := by
  exact ⟨fun ds c k => rfl, fun ds c idx vals k => rfl, rfl, by decide, by decide⟩

/-- C8 counterexample: an array item is not rejected — `normalizeItem`
accepts it (a JS array has `typeof === 'object'`), and a `put` with an array
item succeeds and performs KV writes, falsifying "arrays ... are rejected
with a configuration error ('Invalid item type') before any KV operation". -/
theorem c8_counterexample :
    normalizeItem (.arr [.num 1]) = .ok (.arr [.num 1]) ∧
    (DocumentStore.put storeT noIndexCollection (.str "k1") (.arr [.num 1])
        (mkInitializedSt [])).1 = .ok () ∧
    (DocumentStore.put storeT noIndexCollection (.str "k1") (.arr [.num 1])
        (mkInitializedSt [])).2.writes ≠ [] := by
  exact ⟨rfl, rfl, by decide⟩

/-- C8 amended: scalars (strings, numbers, booleans), `null` and `undefined`
are rejected by `put` with the configuration error `Invalid item type`
before any KV operation (the state comes back unchanged); arrays, however,
pass the `typeof item === 'object'` check and are accepted. -/
theorem c8_put_rejects_scalars (ds : DS) (c : Collection) (key item : JsVal) (k : JsVal)
    (s : St) (hk : normalizeKey key = .ok k) (hi : isScalarOrNullish item = true) :
    DocumentStore.put ds c key item s = (.error "Invalid item type", s) := by
  have hni : normalizeItem item = .error "Invalid item type" := by
    cases item <;> simp_all [isScalarOrNullish, normalizeItem, jsIsObjectType, jsTruthy]
  simp [DocumentStore.put, hk, hni]

/-- Witness for the amended C8 at a concrete scalar item. -/
theorem c8_put_rejects_scalars_witness :
    normalizeKey (.str "k1") = .ok (.str "k1") ∧
    isScalarOrNullish (.num 5) = true ∧
    DocumentStore.put storeT noIndexCollection (.str "k1") (.num 5) (mkInitializedSt [])
      = (.error "Invalid item type", mkInitializedSt []) :=
  ⟨rfl, rfl,
    c8_put_rejects_scalars storeT noIndexCollection (.str "k1") (.num 5) (.str "k1")
      (mkInitializedSt []) rfl rfl⟩

/-- C9 counterexample: on a context inside a transaction whose store has
already been initialized, `initializeDocumentStore` returns normally and
does not throw, falsifying "initializeDocumentStore ... throw[s] when called
on a context for which insideTransaction is true" (the already-initialized
fast path runs before the transaction check). -/
theorem c9_counterexample :
    initializeDocumentStore storeT { mkInitializedSt [] with insideTransaction := true }
      = (.ok (), { mkInitializedSt [] with insideTransaction := true }) := rfl

/-- C9 amended: `destroyAll` always throws on a context inside a transaction
(`insideTransaction`, i.e. `self ≠ self.root`), with no KV operation or state
change; `initializeDocumentStore` throws likewise unless one of its earlier
fast-path checks fires — when the store has already been initialized (or is
initializing) it returns without error and without any KV operation or state
change. -/
theorem c9_inside_transaction (ds : DS) (s : St) (h : s.insideTransaction = true) :
    destroyAll ds s = (.error "Cannot destroy a document store inside a transaction", s) ∧
    (s.hasBeenInitialized = false → s.isInitializing = false →
      initializeDocumentStore ds s =
        (.error "Cannot initialize the document store inside a transaction", s)) ∧
    ((s.hasBeenInitialized = true ∨ s.isInitializing = true) →
      initializeDocumentStore ds s = (.ok (), s)) := by
  refine ⟨?_, ?_, ?_⟩
  · simp [destroyAll, h]
  · intro h1 h2
    simp [initializeDocumentStore, h, h1, h2]
  · intro h1
    rcases h1 with h1 | h1
    · simp [initializeDocumentStore, h1]
    · cases hb : s.hasBeenInitialized
      · simp [initializeDocumentStore, hb, h1]
      · simp [initializeDocumentStore, hb]

/-- Witness for C9 at a concrete in-transaction context. -/
theorem c9_inside_transaction_witness :
    ({ mkInitializedSt [] with insideTransaction := true } : St).insideTransaction = true ∧
    destroyAll storeT { mkInitializedSt [] with insideTransaction := true }
      = (.error "Cannot destroy a document store inside a transaction",
          { mkInitializedSt [] with insideTransaction := true }) :=
  ⟨rfl, (c9_inside_transaction storeT { mkInitializedSt [] with insideTransaction := true } rfl).1⟩

/-- C10: every `get`, `put` or `delete` with the number 0 as the key is
rejected by `normalizeKey` with `Specified key is null or empty`, before any
KV operation (the state comes back unchanged). -/
theorem c10_zero_key_rejected (ds : DS) (c : Collection) (eim : Bool) (item : JsVal) (s : St) :
    DocumentStore.get ds c (.num 0) eim s = (.error "Specified key is null or empty", s) ∧
    DocumentStore.put ds c (.num 0) item s = (.error "Specified key is null or empty", s) ∧
    DocumentStore.delete ds c (.num 0) eim s = (.error "Specified key is null or empty", s) ∧
    normalizeKey (.num 0) = .error "Specified key is null or empty" :=
  ⟨rfl, rfl, rfl, rfl⟩

theorem jsFieldLookup_eq_none_iff (q : List (String × JsVal)) (k : String) :
    jsFieldLookup q k = none ↔ k ∉ q.map Prod.fst := by
  induction q with
  | nil => simp [jsFieldLookup]
  | cons p rest ih =>
    obtain ⟨k2, v⟩ := p
    by_cases h : k2 = k
    · subst h
      simp [jsFieldLookup]
    · have hstep : jsFieldLookup ((k2, v) :: rest) k = jsFieldLookup rest k := by
        simp [jsFieldLookup, h]
      rw [hstep, ih]
      constructor
      · intro hnot hmem
        rcases List.mem_cons.mp hmem with he | hm
        · exact h he.symm
        · exact hnot hm
      · intro hnot hm
        exact hnot (List.mem_cons_of_mem _ hm)

theorem jsFieldLookup_mem (q : List (String × JsVal)) (k : String) (v : JsVal)
    (h : jsFieldLookup q k = some v) : (k, v) ∈ q := by
  induction q with
  | nil => simp [jsFieldLookup] at h
  | cons p rest ih =>
    obtain ⟨k2, w⟩ := p
    by_cases hk : k2 = k
    · subst hk
      simp [jsFieldLookup] at h
      simp [h]
    · simp [jsFieldLookup, hk] at h
      exact List.mem_cons_of_mem _ (ih h)

theorem jsFieldLookup_of_mem_nodup (q : List (String × JsVal))
    (hn : (q.map Prod.fst).Nodup) (k : String) (v : JsVal) (h : (k, v) ∈ q) :
    jsFieldLookup q k = some v := by
  induction q with
  | nil => simp at h
  | cons p rest ih =>
    obtain ⟨k2, w⟩ := p
    simp only [List.map_cons, List.nodup_cons] at hn
    rcases List.mem_cons.mp h with h1 | h1
    · obtain ⟨hk, hv⟩ := Prod.mk.injEq .. ▸ h1
      simp only [Prod.mk.injEq] at h1
      simp [jsFieldLookup, h1.1.symm, h1.2]
    · have hne : k2 ≠ k := by
        intro he
        subst he
        exact hn.1 (List.mem_map_of_mem Prod.fst h1)
      simp [jsFieldLookup, hne, ih hn.2 h1]

theorem jsFieldLookup_perm (q1 q2 : List (String × JsVal))
    (hn : (q1.map Prod.fst).Nodup) (hp : q1.Perm q2) (k : String) :
    jsFieldLookup q1 k = jsFieldLookup q2 k := by
  cases h1 : jsFieldLookup q1 k with
  | none =>
    cases h2 : jsFieldLookup q2 k with
    | none => rfl
    | some v =>
      have hm : (k, v) ∈ q1 := hp.symm.subset (jsFieldLookup_mem q2 k v h2)
      have : k ∈ q1.map Prod.fst := List.mem_map_of_mem Prod.fst hm
      exact absurd this ((jsFieldLookup_eq_none_iff q1 k).mp h1)
  | some v =>
    have hm : (k, v) ∈ q2 := hp.subset (jsFieldLookup_mem q1 k v h1)
    have hn2 : (q2.map Prod.fst).Nodup := ((hp.map Prod.fst).nodup_iff).mp hn
    exact (jsFieldLookup_of_mem_nodup q2 hn2 k v hm).symm

theorem rangeMapGetElem (keys : List String) (n : Nat) (hn : n ≤ keys.length)
    (f : String → JsVal) :
    (List.range n).map (fun i =>
        match keys[i]? with
        | some k => f k
        | none => JsVal.undefined)
      = (keys.take n).map f := by
  induction n with
  | zero => simp
  | succ m ih =>
    have hm : m < keys.length := Nat.lt_of_lt_of_le (Nat.lt_succ_self m) hn
    obtain ⟨k, hk⟩ : ∃ k, keys[m]? = some k :=
      ⟨keys[m], List.getElem?_eq_getElem hm⟩
    rw [List.range_succ, List.map_append, ih (Nat.le_of_lt hm), List.take_succ]
    simp [hk]

/-- C3: for every query, the KV prefix built by `makeIndexKeyForQuery` is
`[storeName, indexCollectionName, q1..qK]` where `K` is the number of query
keys and `q1..qK` are the lookups of the first `K` declared index keys, in
declaration order; the prefix is invariant under any reordering of the
caller's query bindings, and each pushed value that resolves is one of the
caller's own bindings. -/
theorem c3_query_tuple (ds : DS) (c : Collection) (idx : Index)
    (query : List (String × JsVal)) (hlen : query.length ≤ idx.keys.length) :
    makeIndexKeyForQuery ds c idx query =
      [.str ds.name, .str (makeIndexCollectionName c.name (makeIndexName idx.keys))]
        ++ (idx.keys.take query.length).map (fun k => (jsFieldLookup query k).getD .undefined) ∧
    (∀ q2 : List (String × JsVal), (query.map Prod.fst).Nodup → query.Perm q2 →
      makeIndexKeyForQuery ds c idx q2 = makeIndexKeyForQuery ds c idx query) ∧
    (∀ k, k ∈ query.map Prod.fst →
      (k, (jsFieldLookup query k).getD .undefined) ∈ query) := by
  refine ⟨?_, ?_, ?_⟩
  · show _ ++ _ = _ ++ _
    rw [rangeMapGetElem (idx.properties.map IndexProp.key) query.length hlen]
    rfl
  · intro q2 hn hp
    show _ ++ _ = _ ++ _
    have hL : q2.length = query.length := hp.length_eq.symm
    rw [hL]
    congr 1
    apply List.map_congr_left
    intro i _
    cases h : (idx.properties.map IndexProp.key)[i]? with
    | none => simp [h]
    | some k =>
      simp [h, jsFieldLookup_perm query q2 hn hp k]
  · intro k hk
    cases hl : jsFieldLookup query k with
    | none => exact absurd hk ((jsFieldLookup_eq_none_iff query k).mp hl)
    | some v =>
      simpa [hl] using jsFieldLookup_mem query k v hl

/-- Witness for C3 at a two-key index and a query given in scrambled order. -/
theorem c3_query_tuple_witness :
    ([("b", JsVal.num 2), ("a", JsVal.num 1)] : List (String × JsVal)).length
        ≤ (Index.keys { properties := [{ key := "a", value := none }, { key := "b", value := none },
            { key := "c", value := none }], projection := none }).length ∧
    makeIndexKeyForQuery { name := "W", collections := [] }
        { name := "C", indexes := [] }
        { properties := [{ key := "a", value := none }, { key := "b", value := none },
            { key := "c", value := none }], projection := none }
        [("a", JsVal.num 1), ("b", JsVal.num 2)]
      = makeIndexKeyForQuery { name := "W", collections := [] }
          { name := "C", indexes := [] }
          { properties := [{ key := "a", value := none }, { key := "b", value := none },
              { key := "c", value := none }], projection := none }
          [("b", JsVal.num 2), ("a", JsVal.num 1)] :=
  ⟨by decide,
    (c3_query_tuple { name := "W", collections := [] } { name := "C", indexes := [] }
        { properties := [{ key := "a", value := none }, { key := "b", value := none },
            { key := "c", value := none }], projection := none }
        [("b", JsVal.num 2), ("a", JsVal.num 1)] (by decide)).2.1
      [("a", JsVal.num 1), ("b", JsVal.num 2)] (by decide) (by decide)⟩

/-- C6: `upgradeDocumentStore` returns without modifying the persisted
descriptor when its version is `VERSION = 3` (the state changes only by the
logged read); it throws `Cannot downgrade the document store` on a newer
descriptor; for older descriptors the upgrade to 3 is fatal — both from
version 2 and, after the automatic below-2 fixups, from version 1 — and the
fixups themselves drop `lastMigrationNumber` and rewrite `tables[*].indexes`
as the list of index names. -/
theorem c6_upgrade_paths (ds : DS) (s : St) (r : StoreRecord)
    (hr : kvGet s.kv (recordKey ds) = some (some (.record r))) :
    (r.version = VERSION →
      upgradeDocumentStore ds s = (.ok (), s.logRead (.get (recordKey ds)))) ∧
    (r.version > VERSION →
      upgradeDocumentStore ds s =
        (.error "Cannot downgrade the document store", s.logRead (.get (recordKey ds)))) ∧
    (2 ≤ r.version → r.version < VERSION →
      upgradeDocumentStore ds s =
        (.error "Cannot upgrade the document store to version 3 automatically",
          (s.logRead (.get (recordKey ds))).emit "upgradeDidStart")) ∧
    (r.version < 2 → ∀ ts, r.tables = some ts →
      upgradeDocumentStore ds s =
        (.error "Cannot upgrade the document store to version 3 automatically",
          (s.logRead (.get (recordKey ds))).emit "upgradeDidStart")) ∧
    (∀ ts, r.tables = some ts →
      upgradeFixupsV1 r = .ok { r with
        lastMigrationNumber := none,
        tables := some (ts.map (fun t =>
          { indexes := t.indexes.map (fun v => jsGetField v "name") })) }) := by
  have hload : loadRecordReq ds s = (.ok r, s.logRead (.get (recordKey ds))) := by
    simp [loadRecordReq, St.logRead, hr]
  refine ⟨?_, ?_, ?_, ?_, ?_⟩
  · intro hv
    simp [upgradeDocumentStore, hload, hv]
  · intro hv
    have h1 : ¬(r.version = VERSION) := by simp [VERSION] at hv ⊢; omega
    simp [upgradeDocumentStore, hload, h1, hv]
  · intro hv2 hv3
    have h1 : ¬(r.version = VERSION) := by simp [VERSION] at hv3 ⊢; omega
    have h2 : ¬(r.version > VERSION) := by simp [VERSION] at hv3 ⊢; omega
    have h3 : ¬(r.version < 2) := by omega
    have h4 : r.version < 3 := by simpa [VERSION] using hv3
    simp [upgradeDocumentStore, hload, h1, h2, h3, h4]
  · intro hv2 ts hts
    have h1 : ¬(r.version = VERSION) := by simp [VERSION]; omega
    have h2 : ¬(r.version > VERSION) := by simp [VERSION]; omega
    have h4 : r.version < 3 := by omega
    simp [upgradeDocumentStore, hload, h1, h2, hv2, h4, upgradeFixupsV1, hts]
  · intro ts hts
    simp [upgradeFixupsV1, hts]

/-- Witness for C6 on a concrete version-1 descriptor with legacy fields. -/
theorem c6_upgrade_paths_witness :
    kvGet v1ProcessSt.kv (recordKey { name := "S", collections := [] })
        = some (some (.record recordV1)) ∧
    recordV1.version < 2 ∧
    upgradeDocumentStore { name := "S", collections := [] } v1ProcessSt
      = (.error "Cannot upgrade the document store to version 3 automatically",
          (v1ProcessSt.logRead (.get (recordKey { name := "S", collections := [] }))).emit
            "upgradeDidStart") ∧
    upgradeFixupsV1 recordV1
      = .ok { recordV1 with
          lastMigrationNumber := none,
          tables := some [{ indexes := [.str "byName", .undefined] }] } := by
  refine ⟨by decide, by decide, ?_, ?_⟩
  · exact (c6_upgrade_paths { name := "S", collections := [] } v1ProcessSt recordV1
      (by decide)).2.2.2.1 (by decide) _ rfl
  · exact (c6_upgrade_paths { name := "S", collections := [] } v1ProcessSt recordV1
      (by decide)).2.2.2.2 _ rfl

theorem kvGet_kvPut_same (kv : KV) (k : List JsVal) (v : Option StoredVal) :
    kvGet (kvPut kv k v) k = some v := by
  induction kv with
  | nil => simp [kvPut, kvGet]
  | cons e rest ih =>
    by_cases h : e.key = k <;> simp [kvPut, kvGet, h, ih]

theorem kvPut_self (kv : KV) (k : List JsVal) (v : Option StoredVal)
    (h : kvGet kv k = some v) : kvPut kv k v = kv := by
  induction kv with
  | nil => simp [kvGet] at h
  | cons e rest ih =>
    obtain ⟨ek, ev⟩ := e
    by_cases he : ek = k
    · subst he
      simp [kvGet] at h
      simp [kvPut, h]
    · simp [kvGet, he] at h
      simp [kvPut, he, ih h]

theorem kvPut_kvPut (kv : KV) (k : List JsVal) (v1 v2 : Option StoredVal) :
    kvPut (kvPut kv k v1) k v2 = kvPut kv k v2 := by
  induction kv with
  | nil => simp [kvPut]
  | cons e rest ih =>
    by_cases h : e.key = k <;> simp [kvPut, h, ih]

theorem kvGet_kvPut_ne (kv : KV) (k k2 : List JsVal) (v : Option StoredVal)
    (h : k2 ≠ k) : kvGet (kvPut kv k2 v) k = kvGet kv k := by
  have hkk : ¬(k = k2) := fun hh => h hh.symm
  induction kv with
  | nil => simp [kvPut, kvGet, h, hkk]
  | cons e rest ih =>
    by_cases he : e.key = k2
    · have hek : ¬(e.key = k) := fun hh => h (he ▸ hh)
      simp [kvPut, he, kvGet, hek, hkk, h]
    · by_cases hek : e.key = k <;> simp [kvPut, he, kvGet, hek, ih, hkk]

theorem kvGet_kvDel_ne (kv : KV) (k k2 : List JsVal) (h : k2 ≠ k) :
    kvGet (kvDel kv k2) k = kvGet kv k := by
  have hkk : ¬(k = k2) := fun hh => h hh.symm
  induction kv with
  | nil => simp [kvDel]
  | cons e rest ih =>
    by_cases he : e.key = k2
    · have hek : ¬(e.key = k) := fun hh => h (he ▸ hh)
      simp [kvDel, he, kvGet, hek, hkk, h]
    · by_cases hek : e.key = k <;> simp [kvDel, he, kvGet, hek, ih, hkk]

theorem find_desc_toJSON (cs : List Collection) (c : Collection) (hc : c ∈ cs)
    (hn : (cs.map Collection.name).Nodup) :
    (cs.map Collection.toJSON).find? (fun c0 => c0.name == c.name) = some c.toJSON := by
  induction cs with
  | nil => simp at hc
  | cons c0 rest ih =>
    simp only [List.map_cons, List.nodup_cons] at hn
    rcases List.mem_cons.mp hc with rfl | hm
    · simp [Collection.toJSON]
    · by_cases he : c0.name = c.name
      · exact absurd (he ▸ List.mem_map_of_mem Collection.name hm) hn.1
      · have hpred : ((Collection.toJSON c0).name == c.name) = false := by
          simp [Collection.toJSON, he]
        simp only [List.map_cons, List.find?_cons, hpred]
        exact ih hm hn.2

theorem migrateAddIndexes_noop (ds : DS) (c : Collection) (idxs : List Index)
    (e : CollectionDesc) (r : StoreRecord) (s : St)
    (h : ∀ idx ∈ idxs, ∃ ex ∈ e.indexes, ex.keys = idx.keys) :
    migrateAddIndexes ds c idxs e r s = (e, r, s) := by
  induction idxs with
  | nil => rfl
  | cons idx rest ih =>
    have hfind : (e.indexes.find? (fun ex => ex.keys == idx.keys)).isSome := by
      obtain ⟨ex, hex, hkeys⟩ := h idx (List.mem_cons_self _ _)
      exact List.find?_isSome.mpr ⟨ex, hex, by simp [hkeys]⟩
    simp [migrateAddIndexes, hfind, ih (fun i hi => h i (List.mem_cons_of_mem _ hi))]

theorem migrateRemoveIndexes_noop (ds : DS) (c : Collection) (keysList : List (List String))
    (e : CollectionDesc) (r : StoreRecord) (s : St)
    (h : ∀ ks ∈ keysList, ∃ idx ∈ c.indexes, idx.keys = ks) :
    migrateRemoveIndexes ds c keysList e r s = (e, r, s) := by
  induction keysList with
  | nil => rfl
  | cons ks rest ih =>
    have hfind : (c.indexes.find? (fun idx => idx.keys == ks)).isSome := by
      obtain ⟨idx, hidx, hkeys⟩ := h ks (List.mem_cons_self _ _)
      exact List.find?_isSome.mpr ⟨idx, hidx, by simp [hkeys]⟩
    simp [migrateRemoveIndexes, hfind, ih (fun i hi => h i (List.mem_cons_of_mem _ hi))]

theorem migrateCollection_noop (ds : DS) (c : Collection) (r : StoreRecord) (s : St)
    (hfind : r.collections.find? (fun c0 => c0.name == c.name) = some c.toJSON) :
    migrateCollection ds c r s = (.ok r, s) := by
  have hadd : migrateAddIndexes ds c c.indexes c.toJSON r s = (c.toJSON, r, s) := by
    apply migrateAddIndexes_noop
    intro idx hidx
    exact ⟨idx.toJSON, List.mem_map_of_mem Index.toJSON hidx, rfl⟩
  have hrem : migrateRemoveIndexes ds c (c.toJSON.indexes.map IndexDesc.keys) c.toJSON r s
      = (c.toJSON, r, s) := by
    apply migrateRemoveIndexes_noop
    intro ks hks
    simp only [Collection.toJSON, List.map_map] at hks
    obtain ⟨idx, hidx, hkeq⟩ := List.mem_map.mp hks
    exact ⟨idx, hidx, hkeq⟩
  have hrm : c.toJSON.hasBeenRemoved = false := rfl
  simp [migrateCollection, hfind, hrm, hadd, hrem]

theorem migratePhase1_noop (ds : DS) (cs : List Collection) (r : StoreRecord) (s : St)
    (h : ∀ c ∈ cs, r.collections.find? (fun c0 => c0.name == c.name) = some c.toJSON) :
    migratePhase1 ds cs r s = (.ok r, s) := by
  induction cs with
  | nil => rfl
  | cons c rest ih =>
    simp [migratePhase1, migrateCollection_noop ds c r s (h c (List.mem_cons_self _ _)),
      ih (fun c0 h0 => h c0 (List.mem_cons_of_mem _ h0))]

theorem migratePhase2_noop (ds : DS) (es : List CollectionDesc) (r : StoreRecord) (s : St)
    (h : ∀ e ∈ es, e.hasBeenRemoved = true ∨
      (ds.collections.find? (fun c => c.name == e.name)).isSome) :
    migratePhase2 ds es r s = (r, s) := by
  induction es with
  | nil => rfl
  | cons e rest ih =>
    have hstep : migratePhase2Step ds e r s = (r, s) := by
      rcases h e (List.mem_cons_self _ _) with h1 | h1
      · simp [migratePhase2Step, h1]
      · cases hb : e.hasBeenRemoved
        · simp [migratePhase2Step, hb, h1]
        · simp [migratePhase2Step, hb]
    simp [migratePhase2, hstep, ih (fun e0 h0 => h e0 (List.mem_cons_of_mem _ h0))]

theorem migrate_noop (ds : DS) (s : St) (r : StoreRecord)
    (hr : kvGet s.kv (recordKey ds) = some (some (.record r)))
    (hm : r.collections = ds.collections.map Collection.toJSON)
    (hn : (ds.collections.map Collection.name).Nodup)
    (hflag : s.migrationDidStartEventHasBeenEmitted = false) :
    migrateDocumentStore ds s = (.ok (), s.logRead (.get (recordKey ds))) := by
  have hload : loadRecordReq ds s = (.ok r, s.logRead (.get (recordKey ds))) := by
    simp [loadRecordReq, St.logRead, hr]
  have h1 : migratePhase1 ds ds.collections r (s.logRead (.get (recordKey ds)))
      = (.ok r, s.logRead (.get (recordKey ds))) := by
    apply migratePhase1_noop
    intro c hc
    rw [hm]
    exact find_desc_toJSON ds.collections c hc hn
  have h2 : migratePhase2 ds r.collections r (s.logRead (.get (recordKey ds)))
      = (r, s.logRead (.get (recordKey ds))) := by
    apply migratePhase2_noop
    intro e he
    rw [hm] at he
    obtain ⟨c, hc, rfl⟩ := List.mem_map.mp he
    right
    exact List.find?_isSome.mpr ⟨c, hc, by simp [Collection.toJSON]⟩
  have hstop : emitMigrationDidStop (s.logRead (.get (recordKey ds)))
      = s.logRead (.get (recordKey ds)) := by
    simp [emitMigrationDidStop, St.logRead, hflag]
  simp [migrateDocumentStore, hload, h1, h2, hstop]

theorem upgrade_current_noop (ds : DS) (s : St) (r : StoreRecord)
    (hr : kvGet s.kv (recordKey ds) = some (some (.record r)))
    (hv : r.version = VERSION) :
    upgradeDocumentStore ds s = (.ok (), s.logRead (.get (recordKey ds))) := by
  have hload : loadRecordReq ds s = (.ok r, s.logRead (.get (recordKey ds))) := by
    simp [loadRecordReq, St.logRead, hr]
  simp [upgradeDocumentStore, hload, hv]

theorem initUpgradeVerifyMigrate_noop (ds : DS) (s : St) (r : StoreRecord)
    (hr : kvGet s.kv (recordKey ds) = some (some (.record r)))
    (hv : r.version = VERSION)
    (hm : r.collections = ds.collections.map Collection.toJSON)
    (hn : (ds.collections.map Collection.name).Nodup)
    (hflag : s.migrationDidStartEventHasBeenEmitted = false) :
    initUpgradeVerifyMigrate ds s =
      (.ok (), (s.logRead (.get (recordKey ds))).logRead (.get (recordKey ds))) := by
  have hup := upgrade_current_noop ds s r hr hv
  have hmig := migrate_noop ds (s.logRead (.get (recordKey ds))) r hr hm hn hflag
  simp [initUpgradeVerifyMigrate, hup, verifyDocumentStore, hmig]

/-- C5 amended: a second `initialize()` call in the same process returns at
once with zero KV operations; a second migration run with identical
declarations performs zero KV writes; and a second process opening an
already-created, unlocked store performs exactly the two schema-lock
descriptor writes (taking and releasing `isLocked`) — no other writes, the
KV content it leaves equals the one it found — and emits only
`didInitialize`. -/
theorem c5_initialization_idempotence (ds : DS) (s : St) (r : StoreRecord) :
    (s.hasBeenInitialized = true → initializeDocumentStore ds s = (.ok (), s)) ∧
    (kvGet s.kv (recordKey ds) = some (some (.record r)) →
      r.collections = ds.collections.map Collection.toJSON →
      (ds.collections.map Collection.name).Nodup →
      s.migrationDidStartEventHasBeenEmitted = false →
      migrateDocumentStore ds s = (.ok (), s.logRead (.get (recordKey ds)))) ∧
    (s.hasBeenInitialized = false → s.isInitializing = false → s.insideTransaction = false →
      kvGet s.kv (recordKey ds) = some (some (.record r)) →
      r.isLocked = false → r.version = VERSION →
      r.collections = ds.collections.map Collection.toJSON →
      (ds.collections.map Collection.name).Nodup →
      s.migrationDidStartEventHasBeenEmitted = false →
      (initializeDocumentStore ds s).1 = .ok () ∧
      (initializeDocumentStore ds s).2.kv = s.kv ∧
      (initializeDocumentStore ds s).2.writes = s.writes ++
        [.put (recordKey ds) (some (.record { r with isLocked := true })),
         .put (recordKey ds) (some (.record { r with isLocked := false }))] ∧
      (initializeDocumentStore ds s).2.events = s.events ++ ["didInitialize"] ∧
      (initializeDocumentStore ds s).2.hasBeenInitialized = true) := by
  refine ⟨?_, ?_, ?_⟩
  · intro hb
    simp [initializeDocumentStore, hb]
  · intro hr hm hn hflag
    exact migrate_noop ds s r hr hm hn hflag
  · intro hb hi htx hr hlock hv hm hn hflag
    have heta : ({ r with isLocked := false } : StoreRecord) = r := by
      obtain ⟨n, ver, l, cs, mnum, ts⟩ := r
      simp only at hlock
      rw [hlock]
    have hcreate : createDocumentStoreIfDoesNotExist ds { s with isInitializing := true }
        = (.ok false, ({ s with isInitializing := true } : St).logRead (.get (recordKey ds))) := by
      simp [createDocumentStoreIfDoesNotExist, loadRecordOpt, St.logRead, hr]
    have hlockStep : lockDocumentStore ds
          ((({ s with isInitializing := true } : St).logRead (.get (recordKey ds))))
        = (.ok (), stPut ((({ s with isInitializing := true } : St).logRead
              (.get (recordKey ds))).logRead (.get (recordKey ds)))
            (recordKey ds) (some (.record { r with isLocked := true }))) := by
      have hload : loadRecordReq ds
            ((({ s with isInitializing := true } : St).logRead (.get (recordKey ds))))
          = (.ok r, (({ s with isInitializing := true } : St).logRead
              (.get (recordKey ds))).logRead (.get (recordKey ds))) := by
        simp [loadRecordReq, St.logRead, hr]
      simp [lockDocumentStore, hload, hlock, saveRecordOk]
    have hiuvm := initUpgradeVerifyMigrate_noop ds
        (stPut ((({ s with isInitializing := true } : St).logRead
            (.get (recordKey ds))).logRead (.get (recordKey ds)))
          (recordKey ds) (some (.record { r with isLocked := true })))
        { r with isLocked := true }
        (kvGet_kvPut_same _ _ _) hv hm hn hflag
    have hunlock : unlockDocumentStore ds
          (((stPut ((({ s with isInitializing := true } : St).logRead
                (.get (recordKey ds))).logRead (.get (recordKey ds)))
              (recordKey ds) (some (.record { r with isLocked := true }))).logRead
            (.get (recordKey ds))).logRead (.get (recordKey ds)))
        = (.ok (), stPut (((((stPut ((({ s with isInitializing := true } : St).logRead
                (.get (recordKey ds))).logRead (.get (recordKey ds)))
              (recordKey ds) (some (.record { r with isLocked := true }))).logRead
            (.get (recordKey ds))).logRead (.get (recordKey ds))).logRead
              (.get (recordKey ds))))
            (recordKey ds) (some (.record r))) := by
      have hload : loadRecordReq ds
            (((stPut ((({ s with isInitializing := true } : St).logRead
                  (.get (recordKey ds))).logRead (.get (recordKey ds)))
                (recordKey ds) (some (.record { r with isLocked := true }))).logRead
              (.get (recordKey ds))).logRead (.get (recordKey ds)))
          = (.ok { r with isLocked := true },
              ((((stPut ((({ s with isInitializing := true } : St).logRead
                    (.get (recordKey ds))).logRead (.get (recordKey ds)))
                  (recordKey ds) (some (.record { r with isLocked := true }))).logRead
                (.get (recordKey ds))).logRead (.get (recordKey ds))).logRead
                  (.get (recordKey ds)))) := by
        simp [loadRecordReq, St.logRead, stPut, kvGet_kvPut_same]
      simp only [unlockDocumentStore, hload]
      simp [saveRecordOk, heta]
    have hbody : initializeBody ds { s with isInitializing := true }
        = (.ok (), ({ (stPut (((((stPut ((({ s with isInitializing := true } : St).logRead
                (.get (recordKey ds))).logRead (.get (recordKey ds)))
              (recordKey ds) (some (.record { r with isLocked := true }))).logRead
            (.get (recordKey ds))).logRead (.get (recordKey ds))).logRead
              (.get (recordKey ds))))
            (recordKey ds) (some (.record r))) with hasBeenInitialized := true } : St).emit
              "didInitialize") := by
      simp only [initializeBody, hcreate, hlockStep, hiuvm, hunlock, finishInit]
    simp only [hb, hi, htx] at hbody
    simp only [initializeDocumentStore, hb, hi, htx, Bool.false_eq_true, if_false, hbody]
    simp only [St.emit, St.logRead, stPut]
    refine ⟨trivial, ?_, ?_, ?_, trivial⟩
    · show kvPut (kvPut s.kv (recordKey ds) (some (.record { r with isLocked := true })))
          (recordKey ds) (some (.record r)) = s.kv
      rw [kvPut_kvPut, kvPut_self s.kv (recordKey ds) (some (.record r)) hr]
    · rw [heta]
      simp
    · simp

/-- C5 counterexample: a second process opening the already-created store `S`
performs two KV writes during `initializeDocumentStore` (taking and releasing
the schema lock), falsifying "a second process ... performs no KV writes
during initializeDocumentStore". -/
theorem c5_counterexample :
    (initializeDocumentStore storeS secondProcessSt).1 = .ok () ∧
    (initializeDocumentStore storeS secondProcessSt).2.writes.length = 2 := by
  constructor
  · rfl
  · decide

/-- Witness for the amended C5 on the concrete second-process scenario. -/
theorem c5_initialization_idempotence_witness :
    kvGet secondProcessSt.kv (recordKey storeS) = some (some (.record recordS)) ∧
    recordS.isLocked = false ∧
    (initializeDocumentStore storeS secondProcessSt).2.writes = secondProcessSt.writes ++
      [.put (recordKey storeS) (some (.record { recordS with isLocked := true })),
       .put (recordKey storeS) (some (.record { recordS with isLocked := false }))] ∧
    (initializeDocumentStore storeS secondProcessSt).2.events
      = secondProcessSt.events ++ ["didInitialize"] := by
  refine ⟨by decide, rfl, ?_, ?_⟩
  · exact ((c5_initialization_idempotence storeS secondProcessSt recordS).2.2 rfl rfl rfl
      (by decide) rfl rfl rfl (by decide) rfl).2.2.1
  · exact ((c5_initialization_idempotence storeS secondProcessSt recordS).2.2 rfl rfl rfl
      (by decide) rfl rfl rfl (by decide) rfl).2.2.2.1

theorem kvGet_kvDelPfx (kv : KV) (pfx k : List JsVal) (h : keyHasPfx pfx k = false) :
    kvGet (kvDelPfx kv pfx) k = kvGet kv k := by
  induction kv with
  | nil => rfl
  | cons e rest ih =>
    by_cases hek : e.key = k
    · have hkeep : keyHasPfx pfx e.key = false := by rw [hek]; exact h
      simp [kvDelPfx, List.filter_cons, hkeep, kvGet, hek, h]
    · cases hkeep : keyHasPfx pfx e.key
      · simp [kvDelPfx, List.filter_cons, hkeep, kvGet, hek, h]
        try simpa [kvDelPfx] using ih
      · simp [kvDelPfx, List.filter_cons, hkeep, kvGet, hek, h]
        try simpa [kvDelPfx] using ih

theorem makeIndexKey_ne_recordKey (ds ds2 : DS) (c : Collection) (idx : Index)
    (values : List JsVal) (key : JsVal) :
    makeIndexKey ds2 c idx values key ≠ recordKey ds := by
  intro h
  have hlen := congrArg List.length h
  simp [makeIndexKey, recordKey] at hlen

theorem updateIndexOps_keys_ne_recordKey (ds2 ds : DS) (c : Collection) (key : JsVal)
    (oldItem newItem : Option JsVal) (idx : Index) :
    ∀ w ∈ updateIndexOps ds2 c key oldItem newItem idx, kvWriteKey w ≠ recordKey ds := by
  intro w hw
  simp only [updateIndexOps] at hw
  rcases List.mem_append.mp hw with h1 | h1
  · split at h1
    · simp only [List.mem_singleton] at h1
      subst h1
      exact makeIndexKey_ne_recordKey ds ds2 c idx _ key
    · simp at h1
  · split at h1
    · simp only [List.mem_singleton] at h1
      subst h1
      exact makeIndexKey_ne_recordKey ds ds2 c idx _ key
    · simp at h1

theorem kvGet_recordKey_stApplyWrites (ds : DS) (s : St) (ws : List KVWrite)
    (h : ∀ w ∈ ws, kvWriteKey w ≠ recordKey ds) :
    kvGet (stApplyWrites s ws).kv (recordKey ds) = kvGet s.kv (recordKey ds) := by
  induction ws generalizing s with
  | nil => rfl
  | cons w rest ih =>
    have hw := h w (List.mem_cons_self _ _)
    have hrest : ∀ w2 ∈ rest, kvWriteKey w2 ≠ recordKey ds :=
      fun w2 h2 => h w2 (List.mem_cons_of_mem _ h2)
    cases w with
    | put k v =>
      show kvGet (stApplyWrites (stPut s k v) rest).kv (recordKey ds) = _
      rw [ih _ hrest]
      exact kvGet_kvPut_ne s.kv (recordKey ds) k v hw
    | del k =>
      show kvGet (stApplyWrites (stDel s k) rest).kv (recordKey ds) = _
      rw [ih _ hrest]
      exact kvGet_kvDel_ne s.kv (recordKey ds) k hw

theorem kvGet_recordKey_addIndex (ds : DS) (c : Collection) (idx : Index) (s : St) :
    kvGet (addIndex ds c idx s).kv (recordKey ds) = kvGet s.kv (recordKey ds) := by
  simp only [addIndex]
  generalize kvScan s.kv [JsVal.str ds.name, JsVal.str c.name] = entries
  have hgen : ∀ (es : List KVEntry) (s0 : St),
      kvGet (es.foldl (fun s e =>
        stApplyWrites s (updateIndexOps ds c (e.key.getLast?.getD .undefined) none
          (match e.value with
           | some (.val v) => some v
           | _ => none) idx)) s0).kv (recordKey ds) = kvGet s0.kv (recordKey ds) := by
    intro es
    induction es with
    | nil => intro s0; rfl
    | cons e rest ih =>
      intro s0
      show kvGet ((rest.foldl _) (stApplyWrites s0 _)).kv _ = _
      rw [ih]
      exact kvGet_recordKey_stApplyWrites ds s0 _
        (updateIndexOps_keys_ne_recordKey ds ds c _ none _ idx)
  exact hgen entries _

theorem kvGet_recordKey_removeIndex (ds : DS) (cn : String) (ks : List String) (s : St) :
    kvGet (removeIndex ds cn ks s).kv (recordKey ds) = kvGet s.kv (recordKey ds) := by
  simp only [removeIndex, stDelPfx]
  exact kvGet_kvDelPfx s.kv _ _ (by simp [keyHasPfx, recordKey])

theorem kv_emitMigrationDidStart (s : St) : (emitMigrationDidStart s).kv = s.kv := by
  simp only [emitMigrationDidStart]
  split <;> rfl

theorem kv_emitMigrationDidStop (s : St) : (emitMigrationDidStop s).kv = s.kv := by
  simp only [emitMigrationDidStop]
  split <;> rfl

theorem recordPresent_saveRecordOk (ds : DS) (r : StoreRecord) (s : St) :
    recordPresent ds (saveRecordOk ds r s) :=
  ⟨r, by simp [saveRecordOk, stPut, kvGet_kvPut_same]⟩

theorem recordPresent_migrateAddIndexes (ds : DS) (c : Collection) (idxs : List Index)
    (e : CollectionDesc) (r : StoreRecord) (s : St) (hp : recordPresent ds s) :
    recordPresent ds (migrateAddIndexes ds c idxs e r s).2.2 := by
  induction idxs generalizing e r s with
  | nil => exact hp
  | cons idx rest ih =>
    cases hf : (e.indexes.find? (fun ex => ex.keys == idx.keys)).isSome
    · show recordPresent ds (migrateAddIndexes ds c (idx :: rest) e r s).2.2
      simp only [migrateAddIndexes, hf, Bool.false_eq_true, if_false]
      exact ih _ _ _ (recordPresent_saveRecordOk ds _ _)
    · show recordPresent ds (migrateAddIndexes ds c (idx :: rest) e r s).2.2
      simp only [migrateAddIndexes, hf, if_true]
      exact ih _ _ _ hp

theorem recordPresent_migrateRemoveIndexes (ds : DS) (c : Collection)
    (keysList : List (List String)) (e : CollectionDesc) (r : StoreRecord) (s : St)
    (hp : recordPresent ds s) :
    recordPresent ds (migrateRemoveIndexes ds c keysList e r s).2.2 := by
  induction keysList generalizing e r s with
  | nil => exact hp
  | cons ks rest ih =>
    cases hf : (c.indexes.find? (fun idx => idx.keys == ks)).isSome
    · simp only [migrateRemoveIndexes, hf, Bool.false_eq_true, if_false]
      exact ih _ _ _ (recordPresent_saveRecordOk ds _ _)
    · simp only [migrateRemoveIndexes, hf, if_true]
      exact ih _ _ _ hp

theorem recordPresent_migrateCollection (ds : DS) (c : Collection) (r : StoreRecord)
    (s : St) (hp : recordPresent ds s) :
    recordPresent ds (migrateCollection ds c r s).2 := by
  cases hf : r.collections.find? (fun c0 => c0.name == c.name) with
  | none =>
    simp only [migrateCollection, hf]
    exact recordPresent_saveRecordOk ds _ _
  | some e =>
    cases hb : e.hasBeenRemoved
    · rcases hA : migrateAddIndexes ds c c.indexes e r s with ⟨e2, r2, s2⟩
      have hp2 : recordPresent ds s2 := by
        have := recordPresent_migrateAddIndexes ds c c.indexes e r s hp
        rw [hA] at this
        exact this
      rcases hB : migrateRemoveIndexes ds c (e2.indexes.map IndexDesc.keys) e2 r2 s2
        with ⟨e3, r3, s3⟩
      have hp3 : recordPresent ds s3 := by
        have := recordPresent_migrateRemoveIndexes ds c (e2.indexes.map IndexDesc.keys)
          e2 r2 s2 hp2
        rw [hB] at this
        exact this
      simp only [migrateCollection, hf, hb, Bool.false_eq_true, if_false, hA, hB]
      exact hp3
    · simp only [migrateCollection, hf, hb, if_true]
      exact hp

theorem recordPresent_migratePhase1 (ds : DS) (cs : List Collection) (r : StoreRecord)
    (s : St) (hp : recordPresent ds s) :
    recordPresent ds (migratePhase1 ds cs r s).2 := by
  induction cs generalizing r s with
  | nil => exact hp
  | cons c rest ih =>
    show recordPresent ds (migratePhase1 ds (c :: rest) r s).2
    rcases hc : migrateCollection ds c r s with ⟨res, s1⟩
    have hp1 : recordPresent ds s1 := by
      have := recordPresent_migrateCollection ds c r s hp
      rw [hc] at this
      exact this
    cases res with
    | error e =>
      simp only [migratePhase1, hc]
      exact hp1
    | ok r1 =>
      simp only [migratePhase1, hc]
      exact ih _ _ hp1

theorem kvGet_recordKey_removeIndexFold (ds : DS) (cn : String) (ixs : List IndexDesc)
    (s : St) :
    kvGet ((ixs.foldl (fun s ix => removeIndex ds cn ix.keys s) s)).kv (recordKey ds)
      = kvGet s.kv (recordKey ds) := by
  induction ixs generalizing s with
  | nil => rfl
  | cons ix rest ih =>
    show kvGet ((rest.foldl _) (removeIndex ds cn ix.keys s)).kv _ = _
    rw [ih]
    exact kvGet_recordKey_removeIndex ds cn ix.keys s

theorem recordPresent_migratePhase2 (ds : DS) (es : List CollectionDesc) (r : StoreRecord)
    (s : St) (hp : recordPresent ds s) :
    recordPresent ds (migratePhase2 ds es r s).2 := by
  induction es generalizing r s with
  | nil => exact hp
  | cons e rest ih =>
    have hstep : recordPresent ds (migratePhase2Step ds e r s).2 := by
      simp only [migratePhase2Step]
      cases hb : e.hasBeenRemoved
      · simp only [Bool.false_eq_true, if_false]
        cases hf : (ds.collections.find? (fun c => c.name == e.name)).isSome
        · simp only [Bool.false_eq_true, if_false]
          exact recordPresent_saveRecordOk ds _ _
        · simp only [if_true]
          exact hp
      · simp only [if_true]
        exact hp
    rcases h2 : migratePhase2Step ds e r s with ⟨r1, s1⟩
    rw [h2] at hstep
    simp only [migratePhase2, h2]
    exact ih _ _ hstep

theorem recordPresent_of_kv_eq (ds : DS) (s1 s2 : St) (h : s2.kv = s1.kv)
    (hp : recordPresent ds s1) : recordPresent ds s2 := by
  obtain ⟨r2, hr2⟩ := hp
  exact ⟨r2, by rw [h]; exact hr2⟩

theorem loadRecordReq_snd (ds : DS) (s : St) :
    (loadRecordReq ds s).2 = s.logRead (.get (recordKey ds)) := by
  simp only [loadRecordReq]
  cases kvGet (s.logRead (.get (recordKey ds))).kv (recordKey ds) with
  | none => rfl
  | some v =>
    cases v with
    | none => rfl
    | some sv =>
      cases sv with
      | val _ => rfl
      | record _ => rfl

theorem recordPresent_migrate (ds : DS) (s : St) (hp : recordPresent ds s) :
    recordPresent ds (migrateDocumentStore ds s).2 := by
  rcases hl : loadRecordReq ds s with ⟨res, s1⟩
  have hs1 : s1 = s.logRead (.get (recordKey ds)) := by
    have := loadRecordReq_snd ds s
    rw [hl] at this
    exact this
  have hp1 : recordPresent ds s1 := by
    rw [hs1]
    exact hp
  cases res with
  | error e =>
    simp only [migrateDocumentStore, hl]
    exact hp1
  | ok r =>
    rcases h1 : migratePhase1 ds ds.collections r s1 with ⟨res1, s2⟩
    have hp2 : recordPresent ds s2 := by
      have := recordPresent_migratePhase1 ds ds.collections r s1 hp1
      rw [h1] at this
      exact this
    cases res1 with
    | error e =>
      simp only [migrateDocumentStore, hl, h1]
      exact recordPresent_of_kv_eq ds s2 _ (kv_emitMigrationDidStop s2) hp2
    | ok r2 =>
      rcases h2 : migratePhase2 ds r2.collections r2 s2 with ⟨r3, s3⟩
      have hp3 : recordPresent ds s3 := by
        have := recordPresent_migratePhase2 ds r2.collections r2 s2 hp2
        rw [h2] at this
        exact this
      simp only [migrateDocumentStore, hl, h1, h2]
      exact recordPresent_of_kv_eq ds s3 _ (kv_emitMigrationDidStop s3) hp3

theorem recordPresent_upgrade (ds : DS) (s : St) (hp : recordPresent ds s) :
    recordPresent ds (upgradeDocumentStore ds s).2 := by
  simp only [upgradeDocumentStore]
  rcases hl : loadRecordReq ds s with ⟨res, s1⟩
  have hs1 : s1 = s.logRead (.get (recordKey ds)) := by
    have := loadRecordReq_snd ds s
    rw [hl] at this
    exact this
  have hp1 : recordPresent ds s1 := by
    rw [hs1]
    exact hp
  cases res with
  | error e => exact hp1
  | ok r =>
    by_cases hv : r.version = VERSION
    · simp only [hv, if_true]
      exact hp1
    · simp only [hv, if_false]
      by_cases hgt : r.version > VERSION
      · simp only [hgt, if_true]
        exact hp1
      · simp only [hgt, if_false]
        cases hfix : (if r.version < 2 then upgradeFixupsV1 r else Except.ok r) with
        | error e => exact hp1
        | ok r2 =>
          by_cases hlt : r.version < 3
          · simp only [hlt, if_true]
            exact hp1
          · simp only [hlt, if_false]
            exact recordPresent_saveRecordOk ds _ _

theorem recordPresent_iuvm (ds : DS) (s : St) (hp : recordPresent ds s) :
    recordPresent ds (initUpgradeVerifyMigrate ds s).2 := by
  simp only [initUpgradeVerifyMigrate]
  rcases hu : upgradeDocumentStore ds s with ⟨res, s1⟩
  have hp1 : recordPresent ds s1 := by
    have := recordPresent_upgrade ds s hp
    rw [hu] at this
    exact this
  cases res with
  | error e => exact hp1
  | ok u =>
    simp only [verifyDocumentStore]
    exact recordPresent_migrate ds s1 hp1

theorem evProj_stApplyWrites (s : St) (ws : List KVWrite) :
    evProj (stApplyWrites s ws) = evProj s := by
  induction ws generalizing s with
  | nil => rfl
  | cons w rest ih =>
    cases w with
    | put k v =>
      show evProj (stApplyWrites (stPut s k v) rest) = _
      rw [ih]
      rfl
    | del k =>
      show evProj (stApplyWrites (stDel s k) rest) = _
      rw [ih]
      rfl

theorem evProj_addIndex (ds : DS) (c : Collection) (idx : Index) (s : St) :
    evProj (addIndex ds c idx s) = evProj s := by
  simp only [addIndex]
  generalize kvScan s.kv [JsVal.str ds.name, JsVal.str c.name] = entries
  have hgen : ∀ (es : List KVEntry) (s0 : St),
      evProj (es.foldl (fun s e =>
        stApplyWrites s (updateIndexOps ds c (e.key.getLast?.getD .undefined) none
          (match e.value with
           | some (.val v) => some v
           | _ => none) idx)) s0) = evProj s0 := by
    intro es
    induction es with
    | nil => intro s0; rfl
    | cons e rest ih =>
      intro s0
      show evProj ((rest.foldl _) (stApplyWrites s0 _)) = _
      rw [ih, evProj_stApplyWrites]
  exact hgen entries _

theorem migP_of_evProj (s1 s2 : St) (h : evProj s2 = evProj s1) (hp : migP s1) :
    migP s2 := by
  have he : s2.events = s1.events := congrArg Prod.fst h
  have hf : s2.migrationDidStartEventHasBeenEmitted
      = s1.migrationDidStartEventHasBeenEmitted := congrArg Prod.snd h
  unfold migP
  rw [he, hf]
  exact hp

theorem migP_emitMigrationDidStart (s : St) (hp : migP s) :
    migP (emitMigrationDidStart s) := by
  obtain ⟨h1, h2⟩ := hp
  have hsne : (("migrationDidStart" : String) == "migrationDidStop") = false := by decide
  cases hf : s.migrationDidStartEventHasBeenEmitted
  · rw [hf] at h2
    refine ⟨?_, ?_⟩
    · simp [emitMigrationDidStart, hf, St.emit, List.count_append, List.count_cons, h1, hsne]
    · simp [emitMigrationDidStart, hf, St.emit, List.count_append, List.count_cons, h2]
  · simp only [emitMigrationDidStart, hf, if_true]
    exact ⟨h1, h2⟩

theorem migP_saveRecordOk (ds : DS) (r : StoreRecord) (s : St) (hp : migP s) :
    migP (saveRecordOk ds r s) :=
  migP_of_evProj s _ rfl hp

theorem migP_migrateAddIndexes (ds : DS) (c : Collection) (idxs : List Index)
    (e : CollectionDesc) (r : StoreRecord) (s : St) (hp : migP s) :
    migP (migrateAddIndexes ds c idxs e r s).2.2 := by
  induction idxs generalizing e r s with
  | nil => exact hp
  | cons idx rest ih =>
    cases hf : (e.indexes.find? (fun ex => ex.keys == idx.keys)).isSome
    · simp only [migrateAddIndexes, hf, Bool.false_eq_true, if_false]
      refine ih _ _ _ ?_
      refine migP_of_evProj (addIndex ds c idx (emitMigrationDidStart s)) _ rfl ?_
      refine migP_of_evProj (emitMigrationDidStart s) _ (evProj_addIndex ds c idx _) ?_
      exact migP_emitMigrationDidStart s hp
    · simp only [migrateAddIndexes, hf, if_true]
      exact ih _ _ _ hp

theorem migP_migrateRemoveIndexes (ds : DS) (c : Collection)
    (keysList : List (List String)) (e : CollectionDesc) (r : StoreRecord) (s : St)
    (hp : migP s) : migP (migrateRemoveIndexes ds c keysList e r s).2.2 := by
  induction keysList generalizing e r s with
  | nil => exact hp
  | cons ks rest ih =>
    cases hf : (c.indexes.find? (fun idx => idx.keys == ks)).isSome
    · simp only [migrateRemoveIndexes, hf, Bool.false_eq_true, if_false]
      refine ih _ _ _ ?_
      refine migP_of_evProj (emitMigrationDidStart s) _ rfl ?_
      exact migP_emitMigrationDidStart s hp
    · simp only [migrateRemoveIndexes, hf, if_true]
      exact ih _ _ _ hp

theorem migP_migrateCollection (ds : DS) (c : Collection) (r : StoreRecord) (s : St)
    (hp : migP s) : migP (migrateCollection ds c r s).2 := by
  cases hf : r.collections.find? (fun c0 => c0.name == c.name) with
  | none =>
    simp only [migrateCollection, hf]
    exact migP_saveRecordOk ds _ _ (migP_emitMigrationDidStart s hp)
  | some e =>
    cases hb : e.hasBeenRemoved
    · rcases hA : migrateAddIndexes ds c c.indexes e r s with ⟨e2, r2, s2⟩
      have hp2 : migP s2 := by
        have := migP_migrateAddIndexes ds c c.indexes e r s hp
        rw [hA] at this
        exact this
      rcases hB : migrateRemoveIndexes ds c (e2.indexes.map IndexDesc.keys) e2 r2 s2
        with ⟨e3, r3, s3⟩
      have hp3 : migP s3 := by
        have := migP_migrateRemoveIndexes ds c (e2.indexes.map IndexDesc.keys) e2 r2 s2 hp2
        rw [hB] at this
        exact this
      simp only [migrateCollection, hf, hb, Bool.false_eq_true, if_false, hA, hB]
      exact hp3
    · simp only [migrateCollection, hf, hb, if_true]
      exact hp

theorem migP_migratePhase1 (ds : DS) (cs : List Collection) (r : StoreRecord) (s : St)
    (hp : migP s) : migP (migratePhase1 ds cs r s).2 := by
  induction cs generalizing r s with
  | nil => exact hp
  | cons c rest ih =>
    rcases hc : migrateCollection ds c r s with ⟨res, s1⟩
    have hp1 : migP s1 := by
      have := migP_migrateCollection ds c r s hp
      rw [hc] at this
      exact this
    cases res with
    | error e =>
      simp only [migratePhase1, hc]
      exact hp1
    | ok r1 =>
      simp only [migratePhase1, hc]
      exact ih _ _ hp1

theorem evProj_removeIndexFold (ds : DS) (cn : String) (ixs : List IndexDesc) (s : St) :
    evProj (ixs.foldl (fun s ix => removeIndex ds cn ix.keys s) s) = evProj s := by
  induction ixs generalizing s with
  | nil => rfl
  | cons ix rest ih =>
    show evProj ((rest.foldl _) (removeIndex ds cn ix.keys s)) = _
    rw [ih]
    rfl

theorem migP_migratePhase2 (ds : DS) (es : List CollectionDesc) (r : StoreRecord) (s : St)
    (hp : migP s) : migP (migratePhase2 ds es r s).2 := by
  induction es generalizing r s with
  | nil => exact hp
  | cons e rest ih =>
    have hstep : migP (migratePhase2Step ds e r s).2 := by
      cases hb : e.hasBeenRemoved
      · cases hf : (ds.collections.find? (fun c => c.name == e.name)).isSome
        · simp only [migratePhase2Step, hb, hf, Bool.false_eq_true, if_false]
          refine migP_saveRecordOk ds _ _ ?_
          refine migP_of_evProj (emitMigrationDidStart s) _
            (evProj_removeIndexFold ds e.name e.indexes _) ?_
          exact migP_emitMigrationDidStart s hp
        · simp only [migratePhase2Step, hb, hf, Bool.false_eq_true, if_false, if_true]
          exact hp
      · simp only [migratePhase2Step, hb, if_true]
        exact hp
    rcases h2 : migratePhase2Step ds e r s with ⟨r1, s1⟩
    rw [h2] at hstep
    simp only [migratePhase2, h2]
    exact ih _ _ hstep

theorem emitStop_count (s : St) (hp : migP s) :
    (emitMigrationDidStop s).events.count "migrationDidStop"
      = (if "migrationDidStart" ∈ (emitMigrationDidStop s).events then 1 else 0) := by
  obtain ⟨h1, h2⟩ := hp
  cases hf : s.migrationDidStartEventHasBeenEmitted
  · rw [hf] at h2
    have hnm : "migrationDidStart" ∉ s.events := by
      rw [← List.count_eq_zero]
      exact h2
    simp [emitMigrationDidStop, hf, h1, hnm]
  · rw [hf] at h2
    have hm : "migrationDidStart" ∈ s.events := by
      have : 0 < s.events.count "migrationDidStart" := by rw [h2]; exact Nat.one_pos
      exact List.count_pos_iff.mp this
    simp [emitMigrationDidStop, hf, St.emit, List.count_append, List.count_cons, h1, hm]

theorem migrate_stop_count (ds : DS) (s : St)
    (hflag : s.migrationDidStartEventHasBeenEmitted = false)
    (hev : s.events = []) :
    (migrateDocumentStore ds s).2.events.count "migrationDidStop"
      = (if "migrationDidStart" ∈ (migrateDocumentStore ds s).2.events then 1 else 0) := by
  have hp : migP s := by
    constructor <;> simp [migP, hev, hflag]
  rcases hl : loadRecordReq ds s with ⟨res, s1⟩
  have hs1 : s1 = s.logRead (.get (recordKey ds)) := by
    have := loadRecordReq_snd ds s
    rw [hl] at this
    exact this
  have hp1 : migP s1 := by
    rw [hs1]
    exact migP_of_evProj s _ rfl hp
  cases res with
  | error e =>
    simp only [migrateDocumentStore, hl]
    obtain ⟨h1, h2⟩ := hp1
    have hflag1 : s1.migrationDidStartEventHasBeenEmitted = false := by
      rw [hs1]
      exact hflag
    rw [hflag1] at h2
    have hnm : "migrationDidStart" ∉ s1.events := by
      rw [← List.count_eq_zero]
      exact h2
    simp [h1, hnm]
  | ok r =>
    rcases h1 : migratePhase1 ds ds.collections r s1 with ⟨res1, s2⟩
    have hp2 : migP s2 := by
      have := migP_migratePhase1 ds ds.collections r s1 hp1
      rw [h1] at this
      exact this
    cases res1 with
    | error e =>
      simp only [migrateDocumentStore, hl, h1]
      exact emitStop_count s2 hp2
    | ok r2 =>
      rcases h2 : migratePhase2 ds r2.collections r2 s2 with ⟨r3, s3⟩
      have hp3 : migP s3 := by
        have := migP_migratePhase2 ds r2.collections r2 s2 hp2
        rw [h2] at this
        exact this
      simp only [migrateDocumentStore, hl, h1, h2]
      exact emitStop_count s3 hp3

/-- C7: when `initializeDocumentStore` takes the schema lock (the store
already existed and was unlocked) the scoped unlock runs on every exit path:
whether the upgrade/verify/migrate phase succeeds or throws, the descriptor
in the final KV content carries `isLocked = false`; and on every exit path of
`migrateDocumentStore` (normal or exceptional), `migrationDidStop` is emitted
exactly once when `migrationDidStart` was emitted and not at all otherwise. -/
theorem c7_scoped_unlock_and_migration_stop (ds : DS) (s : St) (r : StoreRecord)
    (hb : s.hasBeenInitialized = false) (hi : s.isInitializing = false)
    (htx : s.insideTransaction = false)
    (hr : kvGet s.kv (recordKey ds) = some (some (.record r)))
    (hlock : r.isLocked = false) :
    (∃ r2, kvGet (initializeDocumentStore ds s).2.kv (recordKey ds)
        = some (some (.record r2)) ∧ r2.isLocked = false) ∧
    (∀ s0 : St, s0.migrationDidStartEventHasBeenEmitted = false → s0.events = [] →
      (migrateDocumentStore ds s0).2.events.count "migrationDidStop"
        = (if "migrationDidStart" ∈ (migrateDocumentStore ds s0).2.events then 1 else 0)) := by
  refine ⟨?_, fun s0 hf0 he0 => migrate_stop_count ds s0 hf0 he0⟩
  have hcreate : createDocumentStoreIfDoesNotExist ds { s with isInitializing := true }
      = (.ok false, ({ s with isInitializing := true } : St).logRead (.get (recordKey ds))) := by
    simp [createDocumentStoreIfDoesNotExist, loadRecordOpt, St.logRead, hr]
  have hlockStep : lockDocumentStore ds
        ((({ s with isInitializing := true } : St).logRead (.get (recordKey ds))))
      = (.ok (), stPut ((({ s with isInitializing := true } : St).logRead
            (.get (recordKey ds))).logRead (.get (recordKey ds)))
          (recordKey ds) (some (.record { r with isLocked := true }))) := by
    have hload : loadRecordReq ds
          ((({ s with isInitializing := true } : St).logRead (.get (recordKey ds))))
        = (.ok r, (({ s with isInitializing := true } : St).logRead
            (.get (recordKey ds))).logRead (.get (recordKey ds))) := by
      simp [loadRecordReq, St.logRead, hr]
    simp [lockDocumentStore, hload, hlock, saveRecordOk]
  rcases hiuvm : initUpgradeVerifyMigrate ds
      (stPut ((({ s with isInitializing := true } : St).logRead
          (.get (recordKey ds))).logRead (.get (recordKey ds)))
        (recordKey ds) (some (.record { r with isLocked := true })))
    with ⟨res3, s3⟩
  have hp3 : recordPresent ds s3 := by
    have := recordPresent_iuvm ds
      (stPut ((({ s with isInitializing := true } : St).logRead
          (.get (recordKey ds))).logRead (.get (recordKey ds)))
        (recordKey ds) (some (.record { r with isLocked := true })))
      ⟨{ r with isLocked := true }, by simp [stPut, kvGet_kvPut_same]⟩
    rw [hiuvm] at this
    exact this
  obtain ⟨r3, hr3⟩ := hp3
  have hunlock : unlockDocumentStore ds s3
      = (.ok (), stPut (s3.logRead (.get (recordKey ds))) (recordKey ds)
          (some (.record { r3 with isLocked := false }))) := by
    have hload3 : loadRecordReq ds s3 = (.ok r3, s3.logRead (.get (recordKey ds))) := by
      simp [loadRecordReq, St.logRead, hr3]
    simp [unlockDocumentStore, hload3, saveRecordOk]
  simp only [hb, hi, htx] at hcreate hlockStep hiuvm hunlock
  cases res3 with
  | error e =>
    simp only [initializeDocumentStore, hb, hi, htx, Bool.false_eq_true, if_false,
      initializeBody, hcreate, hlockStep, hiuvm, hunlock]
    exact ⟨{ r3 with isLocked := false }, by simp [stPut, kvGet_kvPut_same], rfl⟩
  | ok u =>
    simp only [initializeDocumentStore, hb, hi, htx, Bool.false_eq_true, if_false,
      initializeBody, hcreate, hlockStep, hiuvm, hunlock, finishInit]
    exact ⟨{ r3 with isLocked := false }, by simp [St.emit, stPut, kvGet_kvPut_same], rfl⟩

/-- Witness for C7 on a store whose migration throws (tombstoned collection
re-declared): the error propagates, yet the final descriptor is unlocked. -/
theorem c7_scoped_unlock_witness :
    kvGet tombstonedSt.kv (recordKey storeS) = some (some (.record tombstonedRecord)) ∧
    tombstonedRecord.isLocked = false ∧
    (initializeDocumentStore storeS tombstonedSt).1
      = .error "Adding a collection that has been removed is not implemented yet" ∧
    (∃ r2, kvGet (initializeDocumentStore storeS tombstonedSt).2.kv (recordKey storeS)
        = some (some (.record r2)) ∧ r2.isLocked = false) := by
  refine ⟨by decide, rfl, by rfl, ?_⟩
  exact (c7_scoped_unlock_and_migration_stop storeS tombstonedSt tombstonedRecord
    rfl rfl rfl (by decide) rfl).1

theorem decodeVal_projectionStoredVal (p : Option (List (String × JsVal))) :
    decodeVal (projectionStoredVal p) = p.map JsVal.obj := by
  cases p <;> rfl

theorem decodeVal_some_val (v : JsVal) : decodeVal (some (.val v)) = some v := rfl

theorem makeItemKey_getLast (ds : DS) (c : Collection) (k : JsVal) :
    ((makeItemKey ds c k).getLast?).getD .undefined = k := rfl

theorem itemAt_eq_some (s : St) (ds : DS) (c : Collection) (k : JsVal) (v : JsVal)
    (h : itemAt s ds c k = some v) :
    kvGet s.kv (makeItemKey ds c k) = some (some (.val v)) := by
  unfold itemAt at h
  cases hk : kvGet s.kv (makeItemKey ds c k) with
  | none => rw [hk] at h; exact absurd h (by simp)
  | some o =>
    cases o with
    | none => rw [hk] at h; exact absurd h (by simp)
    | some sv =>
      cases sv with
      | val v2 =>
        rw [hk] at h
        simp only [Option.some.injEq] at h
        rw [h]
      | record r2 => rw [hk] at h; exact absurd h (by simp)

theorem mapM_normalizeKey (ks : List JsVal) (h : ∀ k ∈ ks, normalizeKey k = .ok k) :
    ks.mapM normalizeKey = .ok ks := by
  induction ks with
  | nil => rfl
  | cons k rest ih =>
    rw [List.mapM_cons, h k (List.mem_cons_self _ _),
      ih (fun a ha => h a (List.mem_cons_of_mem _ ha))]
    rfl

/-- C4 counterexample: with index `{keys: ["lastName"], projection:
["firstName", "age"]}` and one stored item, the projection fast-path for
`properties = ["firstName"]` returns the whole stored projection (with the
extra `age` field), which differs from the `properties = "*"` result
restricted to `["firstName"]` — falsifying the claimed equivalence. -/
theorem c4_counterexample :
    (DocumentStore.find storeP projCollection [("lastName", .str "L")] []
        (.paths ["firstName"]) projPutSt).1
      = .ok [{ key := .str "u1", value := some (.obj [("firstName", .str "Ada"), ("age", .num 36)]) }] ∧
    (DocumentStore.find storeP projCollection [("lastName", .str "L")] [] .all projPutSt).1
      = .ok [{ key := .str "u1", value := some adaItem3 }] ∧
    restrictResults [{ key := .str "u1", value := some adaItem3 }] ["firstName"]
      = [{ key := .str "u1", value := some (.obj [("firstName", .str "Ada")]) }] ∧
    ([{ key := .str "u1", value := some (.obj [("firstName", .str "Ada"), ("age", .num 36)]) }] : List ResultItem)
      ≠ [{ key := .str "u1", value := some (.obj [("firstName", .str "Ada")]) }] := by
  exact ⟨rfl, rfl, by decide, by decide⟩

theorem c4_entries_core (ds : DS) (c : Collection) (ps : List String) (s : St)
    (entries : List KVEntry)
    (hinv : ∀ e ∈ entries,
      (itemAt s ds c ((e.key.getLast?).getD .undefined)).isSome ∧
      e.value = projectionStoredVal
        (makeProjection ps (flattenItem (itemAt s ds c ((e.key.getLast?).getD .undefined))))) :
    entries.map (fun e =>
        ({ key := (e.key.getLast?).getD .undefined, value := decodeVal e.value } : ResultItem))
      = restrictResults
          (((entries.map (fun e => makeItemKey ds c ((e.key.getLast?).getD .undefined))).filterMap
              (fun ik => (kvGet s.kv ik).map (fun v => KVEntry.mk ik v))).map
            (fun e2 =>
              ({ key := (e2.key.getLast?).getD .undefined, value := decodeVal e2.value } : ResultItem)))
          ps := by
  induction entries with
  | nil => rfl
  | cons e rest ih =>
    obtain ⟨hsome, hval⟩ := hinv e (List.mem_cons_self _ _)
    cases hit : itemAt s ds c ((e.key.getLast?).getD .undefined) with
    | none =>
      rw [hit] at hsome
      exact absurd hsome (by simp)
    | some item =>
      have hget := itemAt_eq_some s ds c _ item hit
      rw [hit] at hval
      have hrest := ih (fun e2 h2 => hinv e2 (List.mem_cons_of_mem _ h2))
      simp only [List.map_cons, List.filterMap_cons, hget, Option.map_some', restrictResults,
        hval, decodeVal_projectionStoredVal, decodeVal_some_val, makeItemKey_getLast,
        List.cons.injEq] at *
      first
      | exact ⟨rfl, hrest⟩
      | exact hrest
      | exact ⟨trivial, hrest⟩

/-- C4 amended: for every `find` that supplies a query, with declared
properties `P` non-empty and contained in the chosen index's declared
projection `ps`, the engine takes the projection fast-path — the only KV
access is the index scan (no `getMany` follow-up) and the index entry values
are returned directly; and when every scanned index entry carries the stored
projection of its item (the index invariant the engine maintains), the
result equals the result of the same `find` with properties `"*"` restricted
to the paths of the index's declared projection `ps` — not, as the original
claim said, to `P` itself. -/
theorem c4_projection_fast_path (ds : DS) (c : Collection)
    (q : List (String × JsVal)) (ord : List String) (P ps : List String) (idx : Index)
    (s : St)
    (hq : q ≠ [])
    (hinit : s.hasBeenInitialized = true)
    (hidx : c.findIndexForQueryAndOrder q ord = .ok idx)
    (hproj : idx.projection = some ps)
    (hP : P ≠ [])
    (hsub : ∀ p ∈ P, p ∈ ps)
    (hinv : ∀ e ∈ kvScan s.kv (makeIndexKeyForQuery ds c idx q),
      normalizeKey ((e.key.getLast?).getD .undefined) = .ok ((e.key.getLast?).getD .undefined) ∧
      (itemAt s ds c ((e.key.getLast?).getD .undefined)).isSome ∧
      e.value = projectionStoredVal
        (makeProjection ps (flattenItem (itemAt s ds c ((e.key.getLast?).getD .undefined))))) :
    DocumentStore.find ds c q ord (.paths P) s
      = (.ok ((kvScan s.kv (makeIndexKeyForQuery ds c idx q)).map (fun e =>
          ({ key := (e.key.getLast?).getD .undefined, value := decodeVal e.value } : ResultItem))),
         s.logRead (.scan (makeIndexKeyForQuery ds c idx q))) ∧
    Except.map (fun rs => restrictResults rs ps)
        (DocumentStore.find ds c q ord .all s).1
      = (DocumentStore.find ds c q ord (.paths P) s).1 := by
  have hqE : q.isEmpty = false := by
    cases q with
    | nil => exact absurd rfl hq
    | cons a l => rfl
  have hPE : P.isEmpty = false := by
    cases P with
    | nil => exact absurd rfl hP
    | cons a l => rfl
  have hinitEq : initializeDocumentStore ds s = (.ok (), s) := by
    simp [initializeDocumentStore, hinit]
  have hdiff : P.filter (fun p => !((ps : List String).contains p)) = [] := by
    rw [List.filter_eq_nil_iff]
    intro a ha
    simpa using hsub a ha
  have hfast : DocumentStore.find ds c q ord (.paths P) s
      = (.ok ((kvScan s.kv (makeIndexKeyForQuery ds c idx q)).map (fun e =>
          ({ key := (e.key.getLast?).getD .undefined, value := decodeVal e.value } : ResultItem))),
         s.logRead (.scan (makeIndexKeyForQuery ds c idx q))) := by
    simp [DocumentStore.find, DocumentStore.findWithIndex, hqE, hidx, hPE, hproj, hdiff,
      hinitEq, eq_true hsub]
  refine ⟨hfast, ?_⟩
  rw [hfast]
  have hstar : (DocumentStore.find ds c q ord .all s).1
      = (DocumentStore.getMany ds c
          ((kvScan s.kv (makeIndexKeyForQuery ds c idx q)).map
            (fun e => (e.key.getLast?).getD .undefined)) .all
          (s.logRead (.scan (makeIndexKeyForQuery ds c idx q)))).1 := by
    simp [DocumentStore.find, DocumentStore.findWithIndex, hqE, hidx, hinitEq,
      List.map_map]
    rfl
  rw [hstar]
  cases hscan : kvScan s.kv (makeIndexKeyForQuery ds c idx q) with
  | nil =>
    simp [DocumentStore.getMany, restrictResults]
    rfl
  | cons e0 rest =>
    rw [hscan] at hinv
    have hkeys : ∀ k ∈ (e0 :: rest).map (fun e => (e.key.getLast?).getD JsVal.undefined),
        normalizeKey k = .ok k := by
      intro k hk
      obtain ⟨e2, he2, rfl⟩ := List.mem_map.mp hk
      exact (hinv e2 he2).1
    have hmapM := mapM_normalizeKey _ hkeys
    have hinitEq2 : initializeDocumentStore ds
        (s.logRead (.scan (makeIndexKeyForQuery ds c idx q))) = (.ok (), s.logRead (.scan (makeIndexKeyForQuery ds c idx q))) := by
      simp [initializeDocumentStore, St.logRead, hinit]
    have hcore := c4_entries_core ds c ps s (e0 :: rest)
      (fun e2 h2 => ⟨(hinv e2 h2).2.1, (hinv e2 h2).2.2⟩)
    simp only [List.map_cons] at hcore
    have hloop : List.mapM.loop normalizeKey ((e0.key.getLast?).getD JsVal.undefined
          :: List.map (fun e => (e.key.getLast?).getD JsVal.undefined) rest) []
        = Except.ok ((e0.key.getLast?).getD JsVal.undefined
          :: List.map (fun e => (e.key.getLast?).getD JsVal.undefined) rest) := by
      have hm2 := hmapM
      simp only [List.map_cons] at hm2
      exact hm2
    simp only [DocumentStore.getMany, List.isEmpty_cons, Bool.false_eq_true, if_false,
      List.map_cons, hinitEq2, DocumentStore.wantsValues, hloop]
    simp [List.map_map, hcore, St.logRead, List.filterMap_map, Function.comp_def, hloop, Except.map]

/-- Witness for the amended C4 on the concrete projection scenario. -/
theorem c4_projection_fast_path_witness :
    projPutSt.hasBeenInitialized = true ∧
    projCollection.findIndexForQueryAndOrder [("lastName", JsVal.str "L")] [] = .ok projIndex ∧
    DocumentStore.find storeP projCollection [("lastName", .str "L")] []
        (.paths ["firstName"]) projPutSt
      = (.ok ((kvScan projPutSt.kv (makeIndexKeyForQuery storeP projCollection projIndex
            [("lastName", .str "L")])).map (fun e =>
              ({ key := (e.key.getLast?).getD .undefined, value := decodeVal e.value } : ResultItem))),
         projPutSt.logRead (.scan (makeIndexKeyForQuery storeP projCollection projIndex
            [("lastName", .str "L")]))) ∧
    Except.map (fun rs => restrictResults rs ["firstName", "age"])
        (DocumentStore.find storeP projCollection [("lastName", .str "L")] [] .all projPutSt).1
      = (DocumentStore.find storeP projCollection [("lastName", .str "L")] []
          (.paths ["firstName"]) projPutSt).1 := by
  have hinv : ∀ e ∈ kvScan projPutSt.kv (makeIndexKeyForQuery storeP projCollection projIndex
        [("lastName", JsVal.str "L")]),
      normalizeKey ((e.key.getLast?).getD .undefined) = .ok ((e.key.getLast?).getD .undefined) ∧
      (itemAt projPutSt storeP projCollection ((e.key.getLast?).getD .undefined)).isSome ∧
      e.value = projectionStoredVal (makeProjection ["firstName", "age"]
        (flattenItem (itemAt projPutSt storeP projCollection ((e.key.getLast?).getD .undefined)))) := by
    intro e he
    rw [show kvScan projPutSt.kv (makeIndexKeyForQuery storeP projCollection projIndex
          [("lastName", JsVal.str "L")])
        = [{ key := [.str "P", .str "People:lastName", .str "L", .str "u1"],
             value := some (.val (.obj [("firstName", .str "Ada"), ("age", .num 36)])) }]
      from rfl] at he
    rw [List.mem_singleton] at he
    subst he
    exact ⟨rfl, rfl, rfl⟩
  refine ⟨rfl, rfl, ?_, ?_⟩
  · exact (c4_projection_fast_path storeP projCollection [("lastName", .str "L")] []
      ["firstName"] ["firstName", "age"] projIndex projPutSt (by decide) rfl rfl rfl
      (by decide) (by decide) hinv).1
  · exact (c4_projection_fast_path storeP projCollection [("lastName", .str "L")] []
      ["firstName"] ["firstName", "age"] projIndex projPutSt (by decide) rfl rfl rfl
      (by decide) (by decide) hinv).2
